import Mathlib

/-!
Verification of the dependency-scrambler core (src/src/scrambler.ts and
src/src/types.ts) against its natural-language specification.

Shallow embedding conventions:
* JavaScript numbers are IEEE-754 binary64 values.  The embedding keeps
  exact values (`ℕ`/`ℤ`/`ℚ`) and applies correct rounding at every
  operation whose double-precision behaviour is observable in this code:
  `Number` on a digit capture (`num`, rounding to nearest-even above
  2^53 and to Infinity at the double overflow threshold), the version
  component arithmetic (`jAddC`), `String` of a number (`natStr`,
  ECMAScript shortest round-trip digits, exponential form at and above
  1e21, `"Infinity"`), and the scramble-count arithmetic
  (`flQ`, rounding a rational onto the binary64 grid).  The remaining
  probability-threshold comparisons (`Math.random() < 0.8 *
  scaledAggression` and the like) and the `Math.floor(Math.random() * k)`
  index computations are kept in exact rational arithmetic: no theorem
  below depends on which branch or index a draw selects, and every
  concrete evaluation uses draws for which the exact and the correctly
  rounded values coincide.
* `Math.random()` is modelled as consuming the head of an explicit draw
  list (`List ℚ`); the contract that draws lie in `[0, 1)` is the
  predicate `rngOk`.
* JS objects used as string-keyed dependency maps are modelled as
  insertion-ordered association lists with unique keys; `Object.keys`
  is the key projection in insertion order (package names are never
  integer-indexed keys, so JS enumeration order is insertion order).
* `Array.prototype.sort` is V8's TimSort (Node is the target runtime):
  for arrays shorter than 64 elements `minRunLength` equals the array
  length, so the algorithm is one `CountAndMakeRun` (which reverses a
  strictly descending prefix run) followed by binary insertion of the
  remaining elements; this path is modelled exactly, one draw per
  comparator call.  Theorems evaluate the sort only on such arrays.
* Truthiness: a string is truthy iff nonempty; an object (present map)
  is truthy even when empty; `undefined` is `Option.none`.
-/

set_option maxRecDepth 4096
set_option exponentiation.threshold 1100

/-! ## JS primitives -/

/-- One `Math.random()` call: pop the head of the draw list. -/
def jsRandom (rng : List ℚ) : ℚ × List ℚ := (rng.headD 0, rng.tail)

/-- Contract of `Math.random()`: every draw lies in `[0, 1)`. -/
def rngOk (rng : List ℚ) : Prop := ∀ q ∈ rng, 0 ≤ q ∧ q < 1

instance (rng : List ℚ) : Decidable (rngOk rng) := by
  unfold rngOk; infer_instance

theorem jsRandom_ok {rng : List ℚ} (h : rngOk rng) :
    (0 ≤ (jsRandom rng).1 ∧ (jsRandom rng).1 < 1) ∧ rngOk (jsRandom rng).2 := by
  constructor
  · cases rng with
    | nil => exact ⟨le_refl 0, by norm_num [jsRandom]⟩
    | cons a t => exact h a (List.mem_cons_self a t)
  · intro q hq
    cases rng with
    | nil => cases hq
    | cons a t => exact h q (List.mem_cons_of_mem a hq)

/-! ### Decimal digits -/

/-- Decimal digit characters of a natural number, fuel-indexed so that
the definition is structurally recursive (and hence kernel-computable);
any fuel above the number itself is enough. -/
def natDigitsAux : ℕ → ℕ → List Char → List Char
  | 0, _, acc => acc
  | f + 1, n, acc =>
    if n < 10 then Char.ofNat (n + 48) :: acc
    else natDigitsAux f (n / 10) (Char.ofNat (n % 10 + 48) :: acc)

/-- The exact decimal digit string of a natural number. -/
def natDecimal (n : ℕ) : String := ⟨natDigitsAux (n + 1) n []⟩

/-- Exact numeric value of a decimal digit string (before any rounding). -/
def digitsToNat (l : List Char) : ℕ :=
  l.foldl (fun a c => a * 10 + (c.toNat - 48)) 0

/-! ### Binary64 rounding -/

/-- Base-2 logarithm (floor), fuel-indexed for kernel computability
(`Nat.log2` uses well-founded recursion, which the kernel cannot
unfold). -/
def natLog2Aux : ℕ → ℕ → ℕ
  | 0, _ => 0
  | f + 1, n => if n < 2 then 0 else natLog2Aux f (n / 2) + 1

def natLog2 (n : ℕ) : ℕ := natLog2Aux n n

/-- Round a natural number to the nearest binary64 value (round to
nearest, ties to even): exact below 2^53, otherwise rounded to the
nearest multiple of the unit in the last place. -/
def rndNat (n : ℕ) : ℕ :=
  if n < 2 ^ 53 then n
  else
    let k := natLog2 n - 52
    let q := n / 2 ^ k
    let r := n % 2 ^ k
    let h := 2 ^ (k - 1)
    if r < h then q * 2 ^ k
    else if h < r then (q + 1) * 2 ^ k
    else if q % 2 = 0 then q * 2 ^ k else (q + 1) * 2 ^ k

/-- Magnitudes at or above this threshold round to Infinity (the
midpoint above the largest finite double, 2^1024 - 2^970; the tie there
resolves toward the even, infinite candidate). -/
def DBL_OVERFLOW : ℕ := 2 ^ 1024 - 2 ^ 970

/-- Sign-symmetric integer rounding to the binary64 grid. -/
def rndInt (i : ℤ) : ℤ :=
  if 0 ≤ i then (rndNat i.toNat : ℤ) else -(rndNat i.natAbs : ℤ)

/-- A JS number value in the version pipeline: a finite integer double
(`some i`, always an exactly representable integer) or Infinity
(`none`).  `NaN` and fractional values never arise on these paths. -/
abbrev JNum := Option ℤ

/-- Inject an exact integer into the double domain: round to the
nearest binary64 value, overflowing to Infinity. -/
def rndJ (i : ℤ) : JNum :=
  if DBL_OVERFLOW ≤ i.natAbs then none else some (rndInt i)

/-- JS `Number(s)` on a regex `\d+` capture: the exact digit value,
correctly rounded to a double. -/
def num (s : String) : JNum := rndJ (digitsToNat s.data)

/-- JS addition of a number and a small exact integer constant
(`newMinor + change`, `newPatch + 1`, ...): the exact sum, re-rounded
to the double grid; Infinity absorbs. -/
def jAddC (a : JNum) (c : ℤ) : JNum := a.bind (fun i => rndJ (i + c))

/-- `Math.max(0, x)`: exact on doubles; Infinity passes through. -/
def jMax0 (a : JNum) : JNum := a.map (fun i => max 0 i)

/-! ### ECMAScript `String` of a number
`Number::toString` (radix 10) picks the shortest digit string `s` (with
`k` digits) and exponent such that `s * 10^(pointPos - k)` reads back as
exactly the same double, preferring the candidate closest to the value
and, on a tie, the even `s`; values whose decimal point position exceeds
21 are printed in exponential notation (`String(1e21) = "1e+21"`). -/

/-- One shortest-representation candidate: digits `s`, trailing
exponent `e` (value `s * 10^e`). -/
structure DecCand where
  s : ℕ
  e : ℕ
deriving DecidableEq

/-- Distance of a candidate to the value `n`, in half-units (scaled by
2 so that half-ulp interval endpoints stay integral). -/
def candDist (n : ℕ) (c : DecCand) : ℕ :=
  let v := 2 * c.s * 10 ^ c.e
  if 2 * n ≤ v then v - 2 * n else 2 * n - v

/-- Candidate preference: closest to the value; on a tie, even digits. -/
def candBetter (n : ℕ) (a b : DecCand) : Bool :=
  if candDist n a < candDist n b then true
  else if candDist n a = candDist n b then a.s % 2 = 0
  else false

def bestCand (n : ℕ) : List DecCand → Option DecCand
  | [] => none
  | c :: t =>
    match bestCand n t with
    | none => some c
    | some b => if candBetter n c b then some c else some b

/-- All `k`-digit candidates `s * 10^e` lying in the rounding interval
`(L/2, U/2)` of `n` (closed when `n`'s mantissa is even, i.e. when ties
round back to `n`).  Only the two multiples of `10^e` adjacent to `n`
can lie in the interval, and the exponent is within one of `D - k`. -/
def dblCands (n L U : ℕ) (closed : Bool) (D k : ℕ) : List DecCand :=
  ([D + 1 - k, D - k, D - k - 1].dedup).flatMap (fun e =>
    let t := 10 ^ e
    let s1 := n / t
    ([s1, s1 + 1].filter (fun s =>
      decide (10 ^ (k - 1) ≤ s) && decide (s < 10 ^ k) &&
      (let v := 2 * s * t
       (decide (L < v) && decide (v < U)) ||
         (closed && (decide (v = L) || decide (v = U)))))).map (fun s => DecCand.mk s e))

/-- Search for the smallest digit count `k` admitting a candidate (the
`k = D` exact-digits candidate always succeeds, so the fuel `D + 1` is
never exhausted on representable inputs). -/
def dblPick (n L U : ℕ) (closed : Bool) (D : ℕ) : ℕ → ℕ → Option DecCand
  | 0, _ => none
  | fuel + 1, k =>
    match bestCand n (dblCands n L U closed D k) with
    | some c => some c
    | none => dblPick n L U closed D fuel (k + 1)

/-- `String(n)` for an exactly representable integer double at or above
2^53: shortest round-trip digits, formatted plainly up to a 21-digit
point position and exponentially beyond. -/
def dblStrBig (n : ℕ) : String :=
  let D := (natDecimal n).length
  let j := natLog2 n - 52
  let lo := if n = 2 ^ natLog2 n then 2 ^ (j - 1) else 2 ^ j
  let closed := decide ((n / 2 ^ j) % 2 = 0)
  match dblPick n (2 * n - lo) (2 * n + 2 ^ j) closed D (D + 1) 1 with
  | none => natDecimal n
  | some c =>
    let sDigits := natDecimal c.s
    let pointPos := sDigits.length + c.e
    if pointPos ≤ 21 then sDigits ++ ⟨List.replicate c.e '0'⟩
    else
      (⟨sDigits.data.take 1⟩ : String) ++
      (if sDigits.length > 1 then "." ++ (⟨sDigits.data.drop 1⟩ : String) else "") ++
      "e+" ++ natDecimal (pointPos - 1)

/-- JS `String(n)` for a non-negative integer double value.  Below 2^53
the shortest decimal that reads back as the value is the exact digit
string (adjacent doubles are at distance at least 1 there, so the
rounding interval around the integer contains no other decimal with at
most as many digits), which short-circuits the general search. -/
def natStr (n : ℕ) : String := if n < 2 ^ 53 then natDecimal n else dblStrBig n

/-- JS template interpolation of a number value. -/
def jsNumStr : JNum → String
  | none => "Infinity"
  | some i => if i < 0 then "-" ++ natStr i.natAbs else natStr i.toNat

/-! ### Rounding a rational onto the binary64 grid
Used for `Math.ceil((totalDeps * scramblePercentage) / 100)`, whose
product and quotient are double operations on a possibly fractional
percentage.  Subnormal granularity (grid floor 2^-1074) is modelled; an
overflow cutoff is not, since `totalDeps` is an array length (below
2^32 in JS) and the percentage is at most a few hundred, keeping every
intermediate far below the double range. -/

/-- `2^e` as a rational, for a signed exponent. -/
def pow2z (e : ℤ) : ℚ :=
  if 0 ≤ e then ((2 ^ e.toNat : ℕ) : ℚ) else 1 / ((2 ^ (-e).toNat : ℕ) : ℚ)

/-- Floor base-2 logarithm of a positive rational (on other inputs the
value is irrelevant): the numerator/denominator estimate, corrected by
one. -/
def qLog2 (a : ℚ) : ℤ :=
  let e0 : ℤ := (natLog2 a.num.natAbs : ℤ) - (natLog2 a.den : ℤ)
  if pow2z e0 ≤ a then e0 else e0 - 1

/-- Grid-step exponent at magnitude `a`: 52 below the leading bit, with
the subnormal floor. -/
def flStep (a : ℚ) : ℤ := max (qLog2 a - 52) (-1074)

/-- Round to the nearest integer, ties to even. -/
def roundTiesEven (r : ℚ) : ℤ :=
  if r - ⌊r⌋ < 1 / 2 then ⌊r⌋
  else if 1 / 2 < r - ⌊r⌋ then ⌊r⌋ + 1
  else if ⌊r⌋ % 2 = 0 then ⌊r⌋ else ⌊r⌋ + 1

/-- Correct rounding of an exact rational to the nearest binary64 value
(round to nearest, ties to even). -/
def flQ (q : ℚ) : ℚ :=
  if q < 0 then -((roundTiesEven (-q / pow2z (flStep (-q))) : ℚ) * pow2z (flStep (-q)))
  else if q = 0 then 0
  else (roundTiesEven (q / pow2z (flStep q)) : ℚ) * pow2z (flStep q)

/-! ### Strings, truthiness -/

/-- JS template interpolation of a possibly-`undefined` string. -/
def jsTemplate (o : Option String) : String := o.getD "undefined"

/-- JS truthiness of a possibly-`undefined` string. -/
def optTruthy (o : Option String) : Bool :=
  match o with
  | some s => s ≠ ""
  | none => false

/-- JS `s.startsWith(pre)` (computable on the character lists). -/
def jsStartsWith (s pre : String) : Bool := pre.data.isPrefixOf s.data

/-! ## JS object / array operations -/

/-- Insertion-ordered string map (a plain JS object). -/
abbrev DepMap := List (String × String)

/-- `m[k]` : `Option` = possibly `undefined`. -/
def jsGet (m : DepMap) (k : String) : Option String :=
  (m.find? (fun p => p.1 = k)).map Prod.snd

/-- `m[k] = v` : update in place (keeps key order) or append. -/
def jsSet : DepMap → String → String → DepMap
  | [], k, v => [(k, v)]
  | (k', v') :: t, k, v =>
    if k' = k then (k, v) :: t else (k', v') :: jsSet t k v

/-- `Object.keys(m)` in insertion order. -/
def jsKeys (m : DepMap) : List String := m.map Prod.fst

/-- `l[i]` for an integer index (out of range is `undefined`). -/
def jsIdx (l : List String) (i : ℤ) : Option String :=
  if 0 ≤ i ∧ i < l.length then l.get? i.toNat else none

/-- `l.slice(0, k)` for an integer end index (negative counts from the
end, as in JS). -/
def jsSliceEnd (l : List String) (k : ℤ) : List String :=
  if k < 0 then l.take ((l.length + k).toNat) else l.take k.toNat

/-! ### `Array.prototype.sort` with the comparator
`() => Math.random() - 0.5` under V8 (see the header): TimSort, which
for fewer than 64 elements is `CountAndMakeRun` followed by binary
insertion of the elements after the initial run. -/

/-- One comparator call: consumes one draw; `true` means the comparator
result `draw - 0.5` is negative. -/
def sortCompare (rng : List ℚ) : Bool × List ℚ :=
  (decide (rng.headD 0 < 1 / 2), rng.tail)

/-- The run-extension loop of `CountAndMakeRun`: one comparison per
element; a strictly descending run (`desc`) continues on a negative
comparator result, an ascending run on a non-negative one. -/
def countRunExt (desc : Bool) : List String → ℕ → List ℚ → ℕ × List ℚ
  | [], n, rng => (n, rng)
  | _ :: t, n, rng =>
    let c := sortCompare rng
    if c.1 = desc then countRunExt desc t (n + 1) c.2 else (n, c.2)

/-- `CountAndMakeRun`: the first comparison fixes the direction, the
loop extends the run, and a descending run is reversed in place. -/
def countAndMakeRun (l : List String) (rng : List ℚ) : ℕ × List String × List ℚ :=
  match l with
  | [] => (0, [], rng)
  | [x] => (1, [x], rng)
  | x :: y :: t =>
    let c := sortCompare rng
    let desc := c.1
    let ext := countRunExt desc t 2 c.2
    if desc then
      (ext.1, ((x :: y :: t).take ext.1).reverse ++ (x :: y :: t).drop ext.1, ext.2)
    else (ext.1, x :: y :: t, ext.2)

/-- The binary search of `BinaryInsertionSort`
(`mid = left + ((right - left) >> 1)`; a negative comparator result
moves `right` down, otherwise `left` past `mid`); the width shrinks
every iteration, so `right - left` bounds the fuel. -/
def binSearchAux : ℕ → ℕ → ℕ → List ℚ → ℕ × List ℚ
  | 0, left, _, rng => (left, rng)
  | fuel + 1, left, right, rng =>
    if left < right then
      let mid := left + (right - left) / 2
      let c := sortCompare rng
      if c.1 then binSearchAux fuel left mid c.2
      else binSearchAux fuel (mid + 1) right c.2
    else (left, rng)

/-- Move the element at index `start` down to index `left`, shifting
the slice between them up by one. -/
def insertAt (arr : List String) (start left : ℕ) : List String :=
  arr.take left ++ arr.getD start "" ::
    ((arr.drop left).take (start - left) ++ arr.drop (start + 1))

/-- Binary insertion of the elements at indices `start, start+1, ...`
into the prefix before them. -/
def binInsertLoop : ℕ → List String → ℕ → List ℚ → List String × List ℚ
  | 0, arr, _, rng => (arr, rng)
  | fuel + 1, arr, start, rng =>
    if start < arr.length then
      let bs := binSearchAux start 0 start rng
      binInsertLoop fuel (insertAt arr start bs.1) (start + 1) bs.2
    else (arr, rng)

/-- `keys.sort(() => Math.random() - 0.5)`: V8 returns arrays of fewer
than 2 elements untouched with no comparator call; otherwise (below 64
elements) one run count plus binary insertion. -/
def jsSortRandom (l : List String) (rng : List ℚ) : List String × List ℚ :=
  if l.length < 2 then (l, rng)
  else
    let r := countAndMakeRun l rng
    if r.1 < l.length then binInsertLoop l.length r.2.1 r.1 r.2.2
    else (r.2.1, r.2.2)

/-! ## The version-specifier grammar
`VERSION_RANGE_REGEX = /^(\^|~|>=|>|<=|<|=)?(\d+)\.(\d+)\.(\d+)(-[a-zA-Z0-9.-]+)?$/`
(src/src/types.ts line 70).  The regex is deterministic on every input:
after a modifier the next character must be a digit and no modifier
character is a digit, digit runs are maximal because `.` and `-` are not
digits, so a direct recursive parser is an exact model. -/

/-- The optional range-modifier alternation, in the regex's alternation
order (the two-character alternatives `>=`/`<=` are tried before
`>`/`<`). -/
def parseModifier (l : List Char) : String × List Char :=
  match l with
  | [] => ("", [])
  | c :: t =>
    if c = '>' then
      if t.head? = some '=' then (">=", t.tail) else (">", t)
    else if c = '<' then
      if t.head? = some '=' then ("<=", t.tail) else ("<", t)
    else if c = '^' then ("^", t)
    else if c = '~' then ("~", t)
    else if c = '=' then ("=", t)
    else ("", l)

/-- Maximal digit run and the remainder. -/
def spanDigits : List Char → List Char × List Char
  | [] => ([], [])
  | c :: t =>
    if c.isDigit then
      let r := spanDigits t
      (c :: r.1, r.2)
    else ([], c :: t)

/-- Character class `[a-zA-Z0-9.-]` of the prerelease suffix. -/
def preChar (c : Char) : Bool :=
  c.isAlpha || c.isDigit || c = '.' || c = '-'

/-- The optional `(-[a-zA-Z0-9.-]+)?$` tail: `some none` = no suffix,
`some (some s)` = suffix `s` (including the dash), `none` = no match. -/
def parsePrerelease : List Char → Option (Option String)
  | [] => some none
  | c :: t =>
    if c = '-' then
      if t ≠ [] ∧ t.all preChar then some (some ⟨c :: t⟩) else none
    else none

/-- The five capture groups of `VERSION_RANGE_REGEX` (absent optional
groups normalised: modifier `""`, prerelease `none`; the numeric groups
are kept as their raw digit strings, as the source sometimes re-uses
them verbatim and sometimes via `Number`). -/
structure ParsedVersion where
  modifier : String
  major : String
  minor : String
  patch : String
  prerelease : Option String
deriving DecidableEq

def parseVersionChars (l : List Char) : Option ParsedVersion :=
  let pm := parseModifier l
  let d1 := spanDigits pm.2
  if d1.1 = [] then none else
  match d1.2 with
  | '.' :: r3 =>
    let d2 := spanDigits r3
    if d2.1 = [] then none else
    match d2.2 with
    | '.' :: r5 =>
      let d3 := spanDigits r5
      if d3.1 = [] then none else
      match parsePrerelease d3.2 with
      | some pre => some ⟨pm.1, ⟨d1.1⟩, ⟨d2.1⟩, ⟨d3.1⟩, pre⟩
      | none => none
    | _ => none
  | _ => none

/-- `VERSION_RANGE_REGEX.exec` : the whole-string match. -/
def parseVersion (s : String) : Option ParsedVersion :=
  parseVersionChars s.data

/-! ## semver coercion (external library)
`semver.coerce` / `semver.valid` come from the npm `semver` package, an
external dependency whose code is not part of this repository.
Modelled from the spec: "Coercion: extracting a best-effort
`major.minor.patch` from a loosely formatted version string" — the first
digit run becomes the major, followed, when present, by `.minor` and
`.patch` digit runs; absent parts are `0`; a string with no digits does
not coerce.  The library validates every component against
`Number.MAX_SAFE_INTEGER` (2^53 - 1) and yields an invalid result
beyond it, so `semver.valid(semver.coerce(v))` is non-null exactly when
the coercion succeeds with safe components — which also makes every
coerced component an exact double. -/

def MAX_SAFE_INTEGER : ℕ := 2 ^ 53 - 1

def coerceParts (s : String) : Option (ℕ × ℕ × ℕ) :=
  match spanDigits (s.data.dropWhile (fun c => ¬ c.isDigit)) with
  | ([], _) => none
  | (d1, r1) =>
    match r1 with
    | '.' :: r2 =>
      match spanDigits r2 with
      | ([], _) => some (digitsToNat d1, 0, 0)
      | (d2, r3) =>
        match r3 with
        | '.' :: r4 =>
          match spanDigits r4 with
          | ([], _) => some (digitsToNat d1, digitsToNat d2, 0)
          | (d3, _) => some (digitsToNat d1, digitsToNat d2, digitsToNat d3)
        | _ => some (digitsToNat d1, digitsToNat d2, 0)
    | _ => some (digitsToNat d1, 0, 0)

def coerce (s : String) : Option (ℕ × ℕ × ℕ) :=
  match coerceParts s with
  | some t =>
    if t.1 ≤ MAX_SAFE_INTEGER ∧ t.2.1 ≤ MAX_SAFE_INTEGER ∧ t.2.2 ≤ MAX_SAFE_INTEGER then
      some t
    else none
  | none => none

/-! ## Data model (src/src/types.ts) -/

/-- The `DependencyType` enum. -/
inductive DependencyType where
  | DEPENDENCIES
  | DEV_DEPENDENCIES
  | PEER_DEPENDENCIES
  | OPTIONAL_DEPENDENCIES
deriving DecidableEq

/-- The enum's string value (used in issue messages). -/
def DependencyType.str : DependencyType → String
  | .DEPENDENCIES => "dependencies"
  | .DEV_DEPENDENCIES => "devDependencies"
  | .PEER_DEPENDENCIES => "peerDependencies"
  | .OPTIONAL_DEPENDENCIES => "optionalDependencies"

/-- `Object.values(DependencyType)` in declaration order. -/
def allDependencyTypes : List DependencyType :=
  [.DEPENDENCIES, .DEV_DEPENDENCIES, .PEER_DEPENDENCIES, .OPTIONAL_DEPENDENCIES]

/-- The `PackageJson` interface: the four optional dependency category
maps (extra index-signature fields carry no behaviour in the core and
are omitted). -/
structure PackageJson where
  name : String
  version : String
  dependencies : Option DepMap
  devDependencies : Option DepMap
  peerDependencies : Option DepMap
  optionalDependencies : Option DepMap
deriving DecidableEq

/-- `pkg[depType]`. -/
def getCat (p : PackageJson) : DependencyType → Option DepMap
  | .DEPENDENCIES => p.dependencies
  | .DEV_DEPENDENCIES => p.devDependencies
  | .PEER_DEPENDENCIES => p.peerDependencies
  | .OPTIONAL_DEPENDENCIES => p.optionalDependencies

/-- Replace one category map of a manifest. -/
def setCat (p : PackageJson) : DependencyType → DepMap → PackageJson
  | .DEPENDENCIES, m => { p with dependencies := some m }
  | .DEV_DEPENDENCIES, m => { p with devDependencies := some m }
  | .PEER_DEPENDENCIES, m => { p with peerDependencies := some m }
  | .OPTIONAL_DEPENDENCIES, m => { p with optionalDependencies := some m }

/-- The `scrambledDeps` accumulator: one name list per category. -/
structure ScrambledDeps where
  dependencies : List String
  devDependencies : List String
  peerDependencies : List String
  optionalDependencies : List String
deriving DecidableEq

def ScrambledDeps.empty : ScrambledDeps := ⟨[], [], [], []⟩

def ScrambledDeps.get (s : ScrambledDeps) : DependencyType → List String
  | .DEPENDENCIES => s.dependencies
  | .DEV_DEPENDENCIES => s.devDependencies
  | .PEER_DEPENDENCIES => s.peerDependencies
  | .OPTIONAL_DEPENDENCIES => s.optionalDependencies

def ScrambledDeps.push (s : ScrambledDeps) : DependencyType → String → ScrambledDeps
  | .DEPENDENCIES, k => { s with dependencies := s.dependencies ++ [k] }
  | .DEV_DEPENDENCIES, k => { s with devDependencies := s.devDependencies ++ [k] }
  | .PEER_DEPENDENCIES, k => { s with peerDependencies := s.peerDependencies ++ [k] }
  | .OPTIONAL_DEPENDENCIES, k => { s with optionalDependencies := s.optionalDependencies ++ [k] }

/-- `RouletteOptions` restricted to the fields the core reads
(`targetPath`/`createBackup` only steer the out-of-scope I/O layer).
`none` models an absent (undefined) field. -/
structure RouletteOptions where
  dependencyTypes : Option (List DependencyType) := none
  scramblePercentage : Option ℚ := none
  aggressionLevel : Option ℚ := none
  versionConstraints : Option (List (String × String)) := none
  respectMajorVersions : Option Bool := none
  conflictMode : Option String := none

/-- JS `a || b` on a possibly-undefined number (`0` is falsy). -/
def jsOrNum (o : Option ℚ) (d : ℚ) : ℚ :=
  match o with
  | some x => if x = 0 then d else x
  | none => d

/-- JS `a || b` on a possibly-undefined string (`""` is falsy). -/
def jsOrStr (o : Option String) (d : String) : String :=
  match o with
  | some x => if x = "" then d else x
  | none => d

/-! Effective option values, exactly as computed at the top of
`scrambleDependencies` (src/src/scrambler.ts lines 214-220) against
`DEFAULT_OPTIONS` (src/src/types.ts lines 59-68); arrays and objects
are truthy even when empty, so only `undefined` falls through for them. -/

def effDepTypes (o : RouletteOptions) : List DependencyType :=
  o.dependencyTypes.getD allDependencyTypes

def effPercentage (o : RouletteOptions) : ℚ := jsOrNum o.scramblePercentage 30

def effAggression (o : RouletteOptions) : ℚ := jsOrNum o.aggressionLevel 5

def effMode (o : RouletteOptions) : String := jsOrStr o.conflictMode "realistic"

def effRespect (o : RouletteOptions) : Bool := o.respectMajorVersions.getD true

def effConstraints (o : RouletteOptions) : List (String × String) :=
  o.versionConstraints.getD []

/-! ## Version Specifier Mutator (src/src/scrambler.ts lines 16-19, 61-196) -/

/-- `VERSION_MODIFIERS` (line 16), in source order. -/
def VERSION_MODIFIERS : List String := ["^", "~", ">=", ">", "=", "<", "<=", ""]

/-- `VERSION_MODIFIERS[Math.floor(q * 8)] || ''` : an out-of-range index
yields `undefined`, and both `undefined` and the final `''` element fall
back to `''`. -/
def jsIndexMod (q : ℚ) : String :=
  let i := ⌊q * 8⌋
  if 0 ≤ i ∧ i < 8 then
    if (VERSION_MODIFIERS.getD i.toNat "") = "" then "" else VERSION_MODIFIERS.getD i.toNat ""
  else ""

/-- The `options` bag of `scrambleVersion` (lines 64-69). -/
structure MutOpts where
  respectMajorVersion : Bool := false
  packageName : Option String := none
  versionConstraints : Option (List (String × String)) := none
  conflictMode : Option String := none

/-- Lines 174-181: tighten the range modifier. -/
def cvwcModifier (modifier : String) (rng : List ℚ) : String × List ℚ :=
  if modifier = "^" then
    let p := jsRandom rng
    ((if p.1 < 6/10 then "~" else ""), p.2)
  else if modifier = "~" then
    let p := jsRandom rng
    ((if p.1 < 7/10 then "" else "^"), p.2)
  else
    let p := jsRandom rng
    ((if p.1 < 3/10 then "=" else ""), p.2)

/-- Lines 183-192: adjust minor (60%) or patch (else), sign 50/50,
floored at 0; the untouched component passes through. -/
def cvwcNumbers (minor patch : JNum) (rng : List ℚ) : JNum × JNum × List ℚ :=
  let p2 := jsRandom rng
  if p2.1 < 6/10 then
    let pc := jsRandom p2.2
    let minorChange : ℤ := ⌊pc.1 * 5⌋ + 1
    let ps := jsRandom pc.2
    (jMax0 (jAddC minor (if ps.1 > 1/2 then minorChange else -minorChange)),
     patch, ps.2)
  else
    let pc := jsRandom p2.2
    let patchChange : ℤ := ⌊pc.1 * 10⌋ + 1
    let ps := jsRandom pc.2
    (minor,
     jMax0 (jAddC patch (if ps.1 > 1/2 then patchChange else -patchChange)), ps.2)

/-- `createVersionWithinConstraint` (lines 157-196): mutates minor/patch
while keeping the constraint's major; no prerelease is carried. -/
def createVersionWithinConstraint (modifier : String) (major minor patch : JNum)
    (aggressionLevel : ℚ) (rng : List ℚ) : String × List ℚ :=
  let scaledAggression := aggressionLevel / 10
  let p1 := jsRandom rng
  if p1.1 < scaledAggression * (8/10) then
    let pm := cvwcModifier modifier p1.2
    let nums := cvwcNumbers minor patch pm.2
    (pm.1 ++ jsNumStr major ++ "." ++ jsNumStr nums.1 ++ "." ++ jsNumStr nums.2.1,
     nums.2.2)
  else
    (modifier ++ jsNumStr major ++ "." ++ jsNumStr minor ++ "." ++ jsNumStr patch, p1.2)

/-- Lines 111-119: the chance to change the range modifier. -/
def fmModifier (scaledAggression : ℚ) (m0 : String) (isRealistic : Bool)
    (rng : List ℚ) : String × List ℚ :=
  let p1 := jsRandom rng
  if p1.1 < scaledAggression * (8/10) then
    if isRealistic then
      let p2 := jsRandom p1.2
      if p2.1 < 6/10 then ("", p2.2)
      else
        let p3 := jsRandom p2.2
        ((if p3.1 < 7/10 then "~" else "^"), p3.2)
    else
      let p2 := jsRandom p1.2
      (jsIndexMod p2.1, p2.2)
  else (m0, p1.2)

/-- Lines 121-136: the chance to mutate exactly one numeric component,
picked by `modType`'s 0.3/0.7 split (major only when allowed); the
selected sum re-rounds on the double grid. -/
def fmNumbers (scaledAggression modType : ℚ) (allowMajor : Bool)
    (major0 minor0 patch0 : JNum) (rng : List ℚ) : JNum × JNum × JNum × List ℚ :=
  let p4 := jsRandom rng
  if p4.1 < scaledAggression * (7/10) then
    if modType < 3/10 ∧ allowMajor = true then
      let pc := jsRandom p4.2
      let change : ℤ := ⌊pc.1 * 3⌋ + 1
      let ps := jsRandom pc.2
      (jMax0 (jAddC major0 (if ps.1 > 1/2 then change else -change)),
       minor0, patch0, ps.2)
    else if modType < 7/10 then
      let pc := jsRandom p4.2
      let change : ℤ := ⌊pc.1 * 5⌋ + 1
      let ps := jsRandom pc.2
      (major0,
       jMax0 (jAddC minor0 (if ps.1 > 1/2 then change else -change)),
       patch0, ps.2)
    else
      let pc := jsRandom p4.2
      let change : ℤ := ⌊pc.1 * 10⌋ + 1
      let ps := jsRandom pc.2
      (major0, minor0,
       jMax0 (jAddC patch0 (if ps.1 > 1/2 then change else -change)), ps.2)
  else (major0, minor0, patch0, p4.2)

/-- Lines 138-147: in realistic mode, the chance to pin an exact,
slightly patch-bumped version (`newPatch + 1 + Math.floor(...)`, two
left-associated double additions). -/
def fmRealistic (scaledAggression : ℚ) (isRealistic : Bool) (m : String) (patch : JNum)
    (rng : List ℚ) : String × JNum × List ℚ :=
  if isRealistic then
    let p5 := jsRandom rng
    if p5.1 < (4/10) * scaledAggression then
      let p6 := jsRandom p5.2
      if p6.1 < 1/2 then
        let p7 := jsRandom p6.2
        ("", jAddC (jAddC patch 1) ⌊p7.1 * 3⌋, p7.2)
      else ("", patch, p6.2)
    else (m, patch, p5.2)
  else (m, patch, rng)

/-- The free-mutation tail of `scrambleVersion` (lines 101-151), reached
when no valid constraint applies.  `modType` is drawn first (line 105),
before the three chance gates. -/
def freeMutation (pv : ParsedVersion) (aggressionLevel : ℚ) (options : MutOpts)
    (rng : List ℚ) : String × List ℚ :=
  let scaledAggression := aggressionLevel / 10
  let pT := jsRandom rng
  let modType := pT.1
  let isRealistic : Bool := options.conflictMode = some "realistic"
  let allowMajor : Bool := options.respectMajorVersion = false ∧ isRealistic = false
  let s1 := fmModifier scaledAggression pv.modifier isRealistic pT.2
  let s2 := fmNumbers scaledAggression modType allowMajor
    (num pv.major) (num pv.minor) (num pv.patch) s1.2
  let s3 := fmRealistic scaledAggression isRealistic s1.1 s2.2.2.1 s2.2.2.2
  (s3.1 ++ jsNumStr s2.1 ++ "." ++ jsNumStr s2.2.1 ++ "." ++
     jsNumStr s3.2.1 ++ pv.prerelease.getD "", s3.2.2)

/-- Lines 77-99: look the package up in the constraints map (`find` over
`Object.keys`, exact name or scope prefix).  A found key that is the
empty string is falsy and is skipped by `if (constraintKey)` (line 83),
as is an empty constraint value; an unparsable constraint also falls
through to free mutation. -/
def constraintFor (packageName : Option String)
    (versionConstraints : Option (List (String × String))) :
    Option (String × JNum × JNum × JNum) :=
  match packageName, versionConstraints with
  | some pn, some vc =>
    if pn ≠ "" then
      match (vc.map Prod.fst).find?
          (fun key => pn = key ∨ (pn ≠ "" ∧ jsStartsWith pn (key ++ "/") = true)) with
      | some key =>
        if key ≠ "" then
          match jsGet vc key with
          | some c =>
            if c ≠ "" then
              match parseVersion c with
              | some cpv => some (cpv.modifier, num cpv.major, num cpv.minor, num cpv.patch)
              | none => none
            else none
          | none => none
        else none
      | none => none
    else none
  | _, _ => none

/-- `scrambleVersion` (lines 61-151): opaque specifiers are returned
unchanged before any draw; a valid constraint for the package delegates
to `createVersionWithinConstraint`; otherwise free mutation. -/
def scrambleVersion (originalVersion : String) (aggressionLevel : ℚ)
    (options : MutOpts) (rng : List ℚ) : String × List ℚ :=
  match parseVersion originalVersion with
  | none => (originalVersion, rng)
  | some pv =>
    match constraintFor options.packageName options.versionConstraints with
    | some (cmod, cmaj, cmin, cpat) =>
      createVersionWithinConstraint cmod cmaj cmin cpat aggressionLevel rng
    | none => freeMutation pv aggressionLevel options rng

/-! ## Scramble session state
`scrambleDependencies` deep-copies the manifest (`modified`) and then it
and `createRealisticConflicts` write only through `modified`,
`scrambledDeps` and `issues`, all bundled here.  `original` is the
caller's manifest object, passed by reference in JS: the translation
threads it through every step so that a source write through it would
show up, and the no-mutation guarantee becomes a provable statement. -/

structure St where
  original : PackageJson
  modified : PackageJson
  scrambled : ScrambledDeps
  issues : List String
  rng : List ℚ
deriving DecidableEq

/-- `Math.random()` against the session's draw list. -/
def stDraw (st : St) : ℚ × St := (st.rng.headD 0, { st with rng := st.rng.tail })

def addIssue (st : St) (s : String) : St := { st with issues := st.issues ++ [s] }

def pushScr (st : St) (t : DependencyType) (k : String) : St :=
  { st with scrambled := st.scrambled.push t k }

/-- `modified[t][k] = v` (only ever reached under a guard that
`modified[t]` is a present object). -/
def setMod (st : St) (t : DependencyType) (k v : String) : St :=
  { st with modified := setCat st.modified t (jsSet ((getCat st.modified t).getD []) k v) }

/-! ## Conflict Strategist (`createRealisticConflicts`, lines 274-462)
The source function also receives `options.versionConstraints` but never
destructures or reads it (line 286 pulls out only `aggressionLevel` and
`conflictMode`), so the embedding has no constraints parameter. -/

/-- Lines 290-292 of the strategy-1 guard: the `0.8` probability draw
happens exactly when the category is not peerDependencies and the mode
is `peer-conflict` (JS `||`/`&&` short-circuit order). -/
def strategy1Gate (cur : DependencyType) (mode : String) (st : St) : Bool × St :=
  if cur = DependencyType.PEER_DEPENDENCIES then (true, st)
  else if mode = "peer-conflict" then
    let p := stDraw st
    (decide (p.1 < 8/10), p.2)
  else (false, st)

/-- Lines 303-305: pick a shared key, biased 70% toward `react` when it
is shared. -/
def strategy1Pick (sharedDeps : List String) (st : St) : Option String × St :=
  if sharedDeps.contains "react" then
    let p := stDraw st
    if p.1 < 7/10 then ((some "react" : Option String), p.2)
    else
      let p2 := stDraw p.2
      (jsIdx sharedDeps ⌊p2.1 * sharedDeps.length⌋, p2.2)
  else
    let p := stDraw st
    (jsIdx sharedDeps ⌊p.1 * sharedDeps.length⌋, p.2)

/-- Lines 312-326: the three conflict shapes, split at 0.4/0.7 of one
draw (`cv` is the coerced regular version, whose components the library
keeps at most `MAX_SAFE_INTEGER`; offsets re-round on the double
grid). -/
def strategy1Conflict (cv : ℕ × ℕ × ℕ) (st : St) : String × St :=
  let pSC := stDraw st
  if pSC.1 < 4/10 then
    let pd := stDraw pSC.2
    ("^" ++ jsNumStr (jAddC (rndJ cv.1) (⌊pd.1 * 2⌋ + 1)) ++ ".0.0", pd.2)
  else if pSC.1 < 7/10 then
    (jsNumStr (rndJ cv.1) ++ "." ++ jsNumStr (rndJ cv.2.1) ++ "." ++
       jsNumStr (jAddC (rndJ cv.2.2) 1), pSC.2)
  else
    (">=" ++ jsNumStr (rndJ cv.1) ++ "." ++ jsNumStr (jAddC (rndJ cv.2.1) 2) ++
       ".0 <" ++ jsNumStr (rndJ cv.1) ++ "." ++ jsNumStr (jAddC (rndJ cv.2.1) 5) ++
       ".0", pSC.2)

/-- Lines 328-338: write the conflicting specifier into the copied
peer-dependency map when that map exists; the issue line is pushed under
the same outer guard. -/
def strategy1Write (sharedDep regularVersion : Option String) (conflictVersion : String)
    (st : St) : St :=
  if (getCat st.modified .PEER_DEPENDENCIES).isSome then
    let st1 := if (getCat st.modified .PEER_DEPENDENCIES).isSome ∧ optTruthy sharedDep
      then setMod st .PEER_DEPENDENCIES (sharedDep.getD "") conflictVersion else st
    let st2 := if optTruthy sharedDep
      then pushScr st1 .PEER_DEPENDENCIES (sharedDep.getD "") else st1
    addIssue st2 ("Created peer dependency conflict for " ++ jsTemplate sharedDep ++
      ": regular=" ++ jsTemplate regularVersion ++ ", peer=" ++ conflictVersion)
  else st

/-- Lines 296-341: strategy 1 after its guard has passed. -/
def strategy1Core (st : St) : St :=
  let origDeps := st.original.dependencies.getD []
  let peerDeps := (getCat st.original .PEER_DEPENDENCIES).getD []
  let sharedDeps := (jsKeys peerDeps).filter (fun dep => optTruthy (jsGet origDeps dep))
  if sharedDeps.length > 0 then
    let pick := strategy1Pick sharedDeps st
    let sharedDep := pick.1
    let regularVersion : Option String :=
      if optTruthy sharedDep then jsGet origDeps (sharedDep.getD "") else none
    if optTruthy regularVersion ∧ (coerce (regularVersion.getD "")).isSome then
      let cf := strategy1Conflict ((coerce (regularVersion.getD "")).getD (0, 0, 0)) pick.2
      strategy1Write sharedDep regularVersion cf.1 cf.2
    else pick.2
  else st

/-- Strategy 1 (lines 289-342): peer-vs-regular conflict. -/
def strategy1 (cur : DependencyType) (mode : String) (st : St) : St :=
  let g := strategy1Gate cur mode st
  if g.1 = true ∧ g.2.original.dependencies.isSome ∧
      (jsKeys (g.2.original.dependencies.getD [])).length > 0 then
    strategy1Core g.2
  else g.2

/-- The fixed popular-package catalog (lines 352-355). -/
def popularPackages : List String :=
  ["react", "react-dom", "angular", "@angular/core", "vue",
   "express", "next", "gatsby", "webpack"]

/-- One entry of the fixed transitive-conflict catalog (lines 383-388). -/
structure TransConflict where
  name : String
  version : String
  transitive : String
  transVersion : String

def transitiveConflicts : List TransConflict :=
  [⟨"@babel/core", "^7.0.0", "@babel/preset-env", "^7.18.0"⟩,
   ⟨"webpack", "^4.0.0", "html-webpack-plugin", "^5.0.0"⟩,
   ⟨"react", "^17.0.0", "react-router-dom", "^6.0.0"⟩,
   ⟨"typescript", "^4.0.0", "tslib", "^2.5.0"⟩]

/-- Lines 390-399: overwrite every catalog package present in the
original regular dependencies and not already scrambled. -/
def strategy2Transitive (dependencies : DepMap) (newVersion : String) (st : St) : St :=
  transitiveConflicts.foldl (fun st cf =>
    let depVersion := jsGet dependencies cf.name
    if optTruthy depVersion ∧ ¬ st.scrambled.dependencies.contains cf.name then
      addIssue (pushScr (setMod st .DEPENDENCIES cf.name newVersion) .DEPENDENCIES cf.name)
        ("Created potential transitive dependency conflict for " ++ cf.name ++ ": " ++
         jsTemplate depVersion ++ " -> " ++ newVersion)
    else st) st

/-- Lines 348-403: strategy 2 after its mode/probability gate
(`coerced.minor - Math.floor(...) - 1` is two double subtractions,
clamped at 0). -/
def strategy2Core (st : St) : St :=
  let dependencies := st.original.dependencies.getD []
  let depKeys := jsKeys dependencies
  let foundPopular := popularPackages.filter (fun pk =>
    depKeys.any (fun d => d = pk ∨ jsStartsWith d (pk ++ "/")))
  if foundPopular.length > 0 ∧ st.modified.dependencies.isSome then
    let p2 := stDraw st
    let targetPkg := jsIdx foundPopular ⌊p2.1 * foundPopular.length⌋
    let matchingDeps := depKeys.filter (fun d =>
      targetPkg = some d ∨ jsStartsWith d (jsTemplate targetPkg ++ "/") = true)
    if matchingDeps.length > 0 then
      let p3 := stDraw p2.2
      let dep := jsIdx matchingDeps ⌊p3.1 * matchingDeps.length⌋
      let originalVersion :=
        if optTruthy dep then jsGet dependencies (dep.getD "") else none
      if optTruthy originalVersion ∧ (coerce (originalVersion.getD "")).isSome then
        let cv := (coerce (originalVersion.getD "")).getD (0, 0, 0)
        let p4 := stDraw p3.2
        let newMinor := jMax0 (jAddC (jAddC (rndJ cv.2.1) (-⌊p4.1 * 3⌋)) (-1))
        strategy2Transitive dependencies
          (jsNumStr (rndJ cv.1) ++ "." ++ jsNumStr newMinor ++ ".0") p4.2
      else p3.2
    else p2.2
  else st

/-- Strategy 2 (lines 344-404): simulated transitive conflicts. -/
def strategy2 (aggr : ℚ) (mode : String) (st : St) : St :=
  if mode = "realistic" then
    let p := stDraw st
    if p.1 < (aggr / 10) * (6/10) then strategy2Core p.2 else p.2
  else st

/-- Last `-` position in the leading non-`/` run, for the family-prefix
regex `/^(@[^\/]+\/|[^@][^\/]+-)/` (line 414): the greedy `[^\/]+` makes
the second alternative capture up to the last hyphen of that run. -/
def lastHyphen (m : List Char) : Option ℕ :=
  match m.reverse.findIdx? (fun c => c = '-') with
  | some r => some (m.length - 1 - r)
  | none => none

/-- Capture group 1 of the family-prefix regex on one dependency key. -/
def pfxOf (dep : String) : Option String :=
  match dep.data with
  | [] => none
  | c :: t =>
    if c = '@' then
      let run := t.takeWhile (fun x => x ≠ '/')
      if run ≠ [] ∧ t.drop run.length ≠ [] then some ⟨'@' :: run ++ ['/']⟩ else none
    else
      let m := t.takeWhile (fun x => x ≠ '/')
      match lastHyphen m with
      | some j => if 1 ≤ j then some ⟨c :: m.take (j + 1)⟩ else none
      | none => none

/-- The `Set` of prefixes, iterated in insertion order (lines 412-418). -/
def collectPfx (depKeys : List String) : List String :=
  depKeys.foldl (fun acc dep =>
    match pfxOf dep with
    | some p => if acc.contains p then acc else acc ++ [p]
    | none => acc) []

/-- Inner loop body of strategy 3 (lines 435-454): one non-base family
member; `Number(basePatch) + Math.floor(...) + 1` is two
left-associated double additions on the converted base patch. -/
def processRelated (dependencies : DepMap) (baseModifier baseMajor baseMinor basePatch : String)
    (baseVersion : Option String) (st : St) (pk : String) : St :=
  let p := stDraw st
  if p.1 < 7/10 then
    let p2 := stDraw p.2
    let newVersion := baseModifier ++ baseMajor ++ "." ++ baseMinor ++ "." ++
      jsNumStr (jAddC (jAddC (num basePatch) ⌊p2.1 * 3⌋) 1)
    let st1 := if p2.2.modified.dependencies.isSome ∧ pk ≠ ""
      then setMod p2.2 .DEPENDENCIES pk newVersion else p2.2
    let st2 := if pk ≠ "" then pushScr st1 .DEPENDENCIES pk else st1
    addIssue st2 ("Created version mismatch for related package " ++ pk ++ ": " ++
      (if pk ≠ "" then jsTemplate (jsGet dependencies pk) else "") ++ " -> " ++
      newVersion ++ " (base: " ++ jsTemplate baseVersion ++ ")")
  else p.2

/-- Per-prefix body of strategy 3 (lines 421-458). -/
def processPfx (aggr : ℚ) (depKeys : List String) (dependencies : DepMap)
    (st : St) (pfx : String) : St :=
  let p := stDraw st
  if p.1 < (aggr / 10) * (7/10) then
    let relatedPackages := depKeys.filter (fun d => jsStartsWith d pfx)
    if relatedPackages.length ≥ 2 then
      let basePkg := relatedPackages.headD ""
      let baseVersion : Option String :=
        if basePkg ≠ "" then jsGet dependencies basePkg else some ""
      let baseMatch : Option ParsedVersion :=
        match baseVersion with
        | some v => if v ≠ "" then parseVersion v else none
        | none => none
      match baseMatch with
      | some pv =>
        if p.2.modified.dependencies.isSome then
          (relatedPackages.drop 1).foldl
            (processRelated dependencies pv.modifier pv.major pv.minor pv.patch baseVersion) p.2
        else p.2
      | none => p.2
    else p.2
  else p.2

/-- Strategy 3 (lines 406-459): sibling-family version mismatches. -/
def strategy3 (cur : DependencyType) (aggr : ℚ) (mode : String) (st : St) : St :=
  if mode = "realistic" ∧ cur = DependencyType.DEPENDENCIES then
    let dependencies := st.original.dependencies.getD []
    let depKeys := jsKeys dependencies
    (collectPfx depKeys).foldl (processPfx aggr depKeys dependencies) st
  else st

/-- `createRealisticConflicts` (lines 274-462): the three strategies in
source order over the shared session. -/
def createRealisticConflicts (cur : DependencyType) (aggr : ℚ) (mode : String)
    (st : St) : St :=
  strategy3 cur aggr mode (strategy2 aggr mode (strategy1 cur mode st))

/-- Lines 227-233: `scrambleCount = Math.ceil((totalDeps * P) / 100)` —
the product and the quotient are double operations, hence the two `flQ`
roundings; `Math.ceil` itself is exact on the values reaching it — and
the random-comparator sort-then-slice selection. -/
def depsToScramble (deps : DepMap) (scramblePercentage : ℚ) (rng : List ℚ) :
    List String × List ℚ :=
  let totalDeps := (jsKeys deps).length
  let scrambleCount : ℤ := ⌈flQ (flQ ((totalDeps : ℚ) * scramblePercentage) / 100)⌉
  let srt := jsSortRandom (jsKeys deps) rng
  (jsSliceEnd srt.1 scrambleCount, srt.2)

/-- Lines 236-255: mutate one selected key; record the change exactly
when the mutated specifier differs (and the copied category map is
present, which it always is in context). -/
def processDep (aggr : ℚ) (mode : String) (vc : List (String × String)) (respect : Bool)
    (depType : DependencyType) (deps : DepMap) (st : St) (dep : String) : St :=
  let originalVersion := jsGet deps dep
  let r := scrambleVersion (originalVersion.getD "") aggr
    { conflictMode := some mode, packageName := some dep,
      versionConstraints := some vc, respectMajorVersion := respect } st.rng
  let newVersion := r.1
  let st := { st with rng := r.2 }
  if originalVersion ≠ some newVersion then
    if (getCat st.modified depType).isSome then
      addIssue (pushScr (setMod st depType dep newVersion) depType dep)
        ("Modified " ++ depType.str ++ " " ++ dep ++ ": " ++
         jsTemplate originalVersion ++ " -> " ++ newVersion)
    else st
  else st

/-- Lines 223-266: one configured category (reads the category from the
caller's manifest, mutates the copy, then hands the session to the
Strategist in `realistic`/`peer-conflict` modes). -/
def processCategory (P aggr : ℚ) (mode : String) (respect : Bool)
    (vc : List (String × String)) (st : St) (depType : DependencyType) : St :=
  match getCat st.original depType with
  | none => st
  | some deps =>
    if (jsKeys deps).length > 0 then
      let sel := depsToScramble deps P st.rng
      let st1 := { st with rng := sel.2 }
      let st2 := sel.1.foldl (processDep aggr mode vc respect depType deps) st1
      if mode = "realistic" ∨ mode = "peer-conflict" then
        createRealisticConflicts depType aggr mode st2
      else st2
    else st

/-- `scrambleDependencies` (lines 201-269).  `modified` starts as the
`JSON.parse(JSON.stringify(pkg))` deep copy — in the pure value model
the same value as `pkg` — while `original` is the caller's manifest
reference. -/
def scrambleDependencies (pkg : PackageJson) (options : RouletteOptions)
    (rng : List ℚ) : St :=
  (effDepTypes options).foldl
    (processCategory (effPercentage options) (effAggression options) (effMode options)
      (effRespect options) (effConstraints options))
    { original := pkg, modified := pkg, scrambled := ScrambledDeps.empty,
      issues := [], rng := rng }

/-! ## Safety bounds
Components small enough that every double operation the Mutator applies
to them — one `Number` conversion, offsets of at most 13, one `String`
rendering — is exact: below 2^53 with a slack of 16. -/

/-- All three numeric captures of a parsed version are in the exact
range. -/
def safePV (pv : ParsedVersion) : Bool :=
  decide (digitsToNat pv.major.data + 16 < 2 ^ 53) &&
  decide (digitsToNat pv.minor.data + 16 < 2 ^ 53) &&
  decide (digitsToNat pv.patch.data + 16 < 2 ^ 53)

/-- A finite, non-negative number value in the exact range. -/
def safeJN (j : JNum) : Bool :=
  match j with
  | some i => decide (0 ≤ i) && decide (i + 16 < 2 ^ 53)
  | none => false

/-- The constraint the Mutator would apply, if any, has components in
the exact range. -/
def cfSafe (pn : Option String) (vc : Option (List (String × String))) : Bool :=
  match constraintFor pn vc with
  | some (_, a, b, c) => safeJN a && safeJN b && safeJN c
  | none => true

/-! ## Printer/parser lemmas: a reassembled
`modifier ++ major ++ "." ++ minor ++ "." ++ patch ++ prerelease` string
re-matches `VERSION_RANGE_REGEX`. -/

theorem ofNat_digit_isDigit {d : ℕ} (h : d < 10) :
    (Char.ofNat (d + 48)).isDigit = true := by
  interval_cases d <;> decide

theorem ofNat_digit_toNat {d : ℕ} (h : d < 10) :
    (Char.ofNat (d + 48)).toNat = d + 48 := by
  interval_cases d <;> decide

theorem natDigitsAux_ne_nil : ∀ (f n : ℕ) (acc : List Char), n < f →
    natDigitsAux f n acc ≠ [] := by
  intro f
  induction f with
  | zero => intro n acc h; omega
  | succ f ih =>
    intro n acc h
    rw [natDigitsAux]
    split
    · simp
    · rename_i h10
      exact ih (n / 10) _ (by omega)

theorem natDigitsAux_digits : ∀ (f n : ℕ) (acc : List Char), n < f →
    (∀ c ∈ acc, c.isDigit = true) → ∀ c ∈ natDigitsAux f n acc, c.isDigit = true := by
  intro f
  induction f with
  | zero => intro n acc h; omega
  | succ f ih =>
    intro n acc h hacc c hc
    rw [natDigitsAux] at hc
    split at hc
    · rename_i h10
      rcases List.mem_cons.mp hc with rfl | hmem
      · exact ofNat_digit_isDigit h10
      · exact hacc _ hmem
    · rename_i h10
      refine ih (n / 10) _ (by omega) ?_ c hc
      intro c' hc'
      rcases List.mem_cons.mp hc' with rfl | hmem
      · exact ofNat_digit_isDigit (Nat.mod_lt _ (by omega))
      · exact hacc _ hmem

theorem natDigitsAux_eq_append : ∀ (f n : ℕ) (acc : List Char), n < f →
    natDigitsAux f n acc = natDigitsAux f n [] ++ acc := by
  intro f
  induction f with
  | zero => intro n acc h; omega
  | succ f ih =>
    intro n acc h
    by_cases h10 : n < 10
    · conv_lhs => rw [natDigitsAux]
      conv_rhs => rw [natDigitsAux]
      rw [if_pos h10, if_pos h10]
      simp
    · have hrec : n / 10 < f := by omega
      conv_lhs => rw [natDigitsAux]
      conv_rhs => rw [natDigitsAux]
      rw [if_neg h10, if_neg h10, ih (n / 10) _ hrec,
          ih (n / 10) (Char.ofNat (n % 10 + 48) :: []) hrec]
      simp

theorem natDecimal_data_ne_nil (n : ℕ) : (natDecimal n).data ≠ [] :=
  natDigitsAux_ne_nil (n + 1) n [] (Nat.lt_succ_self n)

theorem natDecimal_data_digits (n : ℕ) : ∀ c ∈ (natDecimal n).data, c.isDigit = true :=
  natDigitsAux_digits (n + 1) n [] (Nat.lt_succ_self n) (by intro c hc; cases hc)

theorem natDigitsAux_foldl : ∀ (f n : ℕ), n < f → ∀ v : ℕ,
    (natDigitsAux f n []).foldl (fun a c => a * 10 + (c.toNat - 48)) v =
      v * 10 ^ (natDigitsAux f n []).length + n := by
  intro f
  induction f with
  | zero => intro n h; omega
  | succ f ih =>
    intro n h v
    by_cases h10 : n < 10
    · rw [natDigitsAux, if_pos h10]
      simp [ofNat_digit_toNat h10]
    · have hrec : n / 10 < f := by omega
      have hdig : n % 10 < 10 := Nat.mod_lt _ (by omega)
      have hrep : natDigitsAux (f + 1) n [] =
          natDigitsAux f (n / 10) [] ++ [Char.ofNat (n % 10 + 48)] := by
        conv_lhs => rw [natDigitsAux]
        rw [if_neg h10, natDigitsAux_eq_append f (n / 10) _ hrec]
      rw [hrep, List.foldl_append, ih (n / 10) hrec v]
      simp only [List.foldl_cons, List.foldl_nil, List.length_append,
        List.length_singleton, ofNat_digit_toNat hdig, pow_succ]
      have hdm : 10 * (n / 10) + n % 10 = n := Nat.div_add_mod n 10
      generalize (10 : ℕ) ^ (natDigitsAux f (n / 10) []).length = K
      ring_nf
      omega

theorem digitsToNat_natDecimal (n : ℕ) : digitsToNat (natDecimal n).data = n := by
  show digitsToNat (natDigitsAux (n + 1) n []) = n
  have := natDigitsAux_foldl (n + 1) n (Nat.lt_succ_self n) 0
  simpa [digitsToNat] using this

/-! ### Smallness: below 2^53 every rounding step is the identity. -/

theorem p53n : (2 : ℕ) ^ 53 = 9007199254740992 := by norm_num

theorem p53i : (2 : ℤ) ^ 53 = 9007199254740992 := by norm_num

theorem rndNat_small {n : ℕ} (h : n < 2 ^ 53) : rndNat n = n := by
  rw [rndNat, if_pos h]

theorem rndInt_small {i : ℤ} (h : i.natAbs < 2 ^ 53) : rndInt i = i := by
  rw [rndInt]
  split_ifs with h0
  · rw [rndNat_small (by rw [p53n]; rw [p53n] at h; omega)]
    omega
  · rw [rndNat_small h]
    omega

theorem rndJ_small {i : ℤ} (h : i.natAbs < 2 ^ 53) : rndJ i = some i := by
  rw [rndJ, if_neg ?hn, rndInt_small h]
  case hn =>
    intro hle
    have h2 : (2 : ℕ) ^ 53 ≤ DBL_OVERFLOW := by norm_num [DBL_OVERFLOW]
    exact absurd (lt_of_lt_of_le h h2) (not_lt.mpr hle)

theorem num_small {s : String} (h : digitsToNat s.data < 2 ^ 53) :
    num s = some ((digitsToNat s.data : ℕ) : ℤ) := by
  rw [num]
  apply rndJ_small
  simpa using h

theorem num_natDecimal {n : ℕ} (h : n < 2 ^ 53) : num (natDecimal n) = some (n : ℤ) := by
  rw [num, digitsToNat_natDecimal]
  apply rndJ_small
  simpa using h

theorem natStr_small {n : ℕ} (h : n < 2 ^ 53) : natStr n = natDecimal n := by
  rw [natStr, if_pos h]

theorem jsNumStr_small {i : ℤ} (h0 : 0 ≤ i) (h : i < 2 ^ 53) :
    jsNumStr (some i) = natDecimal i.toNat := by
  simp only [jsNumStr]
  rw [if_neg (not_lt.mpr h0), natStr_small (by rw [p53n]; rw [p53i] at h; omega)]

theorem jAddC_small {a c : ℤ} (h : (a + c).natAbs < 2 ^ 53) :
    jAddC (some a) c = some (a + c) := by
  show rndJ (a + c) = some (a + c)
  exact rndJ_small h

theorem jMax0_some (i : ℤ) : jMax0 (some i) = some (max 0 i) := rfl

/-- One `Math.max(0, x + change)` step on a bounded component stays a
finite, non-negative, bounded value (offsets in this code are at most
13 in magnitude). -/
theorem jBump_shape {x : ℤ} (hx0 : 0 ≤ x) {c : ℤ} (hc : c.natAbs ≤ 13)
    (hx : x + 13 < 2 ^ 53) :
    jMax0 (jAddC (some x) c) = some (max 0 (x + c)) ∧
      0 ≤ max 0 (x + c) ∧ max 0 (x + c) ≤ x + 13 := by
  rw [p53i] at hx
  refine ⟨?_, le_max_left _ _, by omega⟩
  rw [jAddC_small (by rw [p53n]; omega), jMax0_some]

/-- `Math.floor(q * K)` for a draw `q ∈ [0, 1)` lies in `[0, K)`. -/
theorem floor_draw_bound {q : ℚ} (h0 : 0 ≤ q) (h1 : q < 1) (K : ℚ) (KZ : ℤ)
    (hK : K = (KZ : ℚ)) (hKpos : 0 < KZ) : 0 ≤ ⌊q * K⌋ ∧ ⌊q * K⌋ < KZ := by
  subst hK
  have hKQ : (0 : ℚ) < (KZ : ℚ) := by exact_mod_cast hKpos
  constructor
  · exact Int.floor_nonneg.mpr (mul_nonneg h0 hKQ.le)
  · exact Int.floor_lt.mpr (mul_lt_of_lt_one_left hKQ h1)

/-! ### Parser round trip -/

theorem spanDigits_append (d : List Char) (hd : ∀ c ∈ d, c.isDigit = true) :
    ∀ r : List Char, (r = [] ∨ ∃ c t, r = c :: t ∧ c.isDigit = false) →
    spanDigits (d ++ r) = (d, r) := by
  induction d with
  | nil =>
    intro r hr
    rcases hr with rfl | ⟨c, t, rfl, hc⟩
    · rfl
    · simp [spanDigits, hc]
  | cons x xs ih =>
    intro r hr
    have hx := hd x (List.mem_cons_self _ _)
    simp [spanDigits, hx, ih (fun c hc => hd c (List.mem_cons_of_mem _ hc)) r hr]

theorem parseModifier_digit {c : Char} (t : List Char) (h : c.isDigit = true) :
    parseModifier (c :: t) = ("", c :: t) := by
  have h1 : c ≠ '>' := by rintro rfl; exact absurd h (by decide)
  have h2 : c ≠ '<' := by rintro rfl; exact absurd h (by decide)
  have h3 : c ≠ '^' := by rintro rfl; exact absurd h (by decide)
  have h4 : c ≠ '~' := by rintro rfl; exact absurd h (by decide)
  have h5 : c ≠ '=' := by rintro rfl; exact absurd h (by decide)
  simp [parseModifier, h1, h2, h3, h4, h5]

theorem parseModifier_gt {d : Char} (hd : d.isDigit = true) (t : List Char) :
    parseModifier ('>' :: d :: t) = (">", d :: t) := by
  have h5 : d ≠ '=' := by rintro rfl; exact absurd hd (by decide)
  simp [parseModifier, h5]

theorem parseModifier_lt {d : Char} (hd : d.isDigit = true) (t : List Char) :
    parseModifier ('<' :: d :: t) = ("<", d :: t) := by
  have h5 : d ≠ '=' := by rintro rfl; exact absurd hd (by decide)
  simp [parseModifier, h5]

/-- Validity of a prerelease chunk for re-parsing: empty, or a dash
followed by a nonempty run over `[a-zA-Z0-9.-]`. -/
def preStrOk (p : String) : Prop :=
  p = "" ∨ ∃ t, p.data = '-' :: t ∧ t ≠ [] ∧ t.all preChar = true

theorem parseVersionChars_core (m : String) (A B C : List Char) (p : String)
    (hA : A ≠ []) (hAd : ∀ x ∈ A, x.isDigit = true)
    (hB : B ≠ []) (hBd : ∀ x ∈ B, x.isDigit = true)
    (hC : C ≠ []) (hCd : ∀ x ∈ C, x.isDigit = true)
    (hp : preStrOk p)
    (hmod : parseModifier (m.data ++ (A ++ '.' :: (B ++ '.' :: (C ++ p.data)))) =
      (m, A ++ '.' :: (B ++ '.' :: (C ++ p.data)))) :
    parseVersionChars (m.data ++ (A ++ '.' :: (B ++ '.' :: (C ++ p.data)))) =
      some ⟨m, ⟨A⟩, ⟨B⟩, ⟨C⟩, if p = "" then none else some p⟩ := by
  have hpd : p.data = [] ∨ ∃ c t, p.data = c :: t ∧ c.isDigit = false := by
    rcases hp with rfl | ⟨t, hpt, htne, hall⟩
    · left; rfl
    · right; exact ⟨'-', t, hpt, by decide⟩
  have hsA : spanDigits (A ++ '.' :: (B ++ '.' :: (C ++ p.data))) =
      (A, '.' :: (B ++ '.' :: (C ++ p.data))) :=
    spanDigits_append A hAd _ (Or.inr ⟨'.', _, rfl, by decide⟩)
  have hsB : spanDigits (B ++ '.' :: (C ++ p.data)) = (B, '.' :: (C ++ p.data)) :=
    spanDigits_append B hBd _ (Or.inr ⟨'.', _, rfl, by decide⟩)
  have hsC : spanDigits (C ++ p.data) = (C, p.data) :=
    spanDigits_append C hCd _ hpd
  have hpre : parsePrerelease p.data = some (if p = "" then none else some p) := by
    rcases hp with rfl | ⟨t, hpt, htne, hall⟩
    · rfl
    · have hpe : p ≠ "" := by
        intro h
        rw [h] at hpt
        cases hpt
      obtain ⟨pd⟩ := p
      have hpd' : pd = '-' :: t := hpt
      subst hpd'
      simp [parsePrerelease, htne, hall, hpe]
  simp [parseVersionChars, hmod, hsA, hsB, hsC, hpre, hA, hB, hC]

/-- A reassembled `modifier ++ a ++ "." ++ b ++ "." ++ c ++ prerelease`
string parses back to exactly its components. -/
theorem parseVersion_render (m : String) (hm : m ∈ VERSION_MODIFIERS) (a b c : ℕ)
    (p : String) (hp : preStrOk p) :
    parseVersion (m ++ natDecimal a ++ "." ++ natDecimal b ++ "." ++ natDecimal c ++ p) =
      some ⟨m, natDecimal a, natDecimal b, natDecimal c, if p = "" then none else some p⟩ := by
  obtain ⟨d, A', hA⟩ : ∃ d A', (natDecimal a).data = d :: A' := by
    rcases h : (natDecimal a).data with _ | ⟨d, A'⟩
    · exact absurd h (natDecimal_data_ne_nil a)
    · exact ⟨d, A', rfl⟩
  have hd : d.isDigit = true := by
    have hdig := natDecimal_data_digits a
    rw [hA] at hdig
    exact hdig d (List.mem_cons_self _ _)
  have hcore := parseVersionChars_core m (natDecimal a).data (natDecimal b).data
    (natDecimal c).data p (natDecimal_data_ne_nil a) (natDecimal_data_digits a)
    (natDecimal_data_ne_nil b) (natDecimal_data_digits b) (natDecimal_data_ne_nil c)
    (natDecimal_data_digits c) hp
  have hdata : (m ++ natDecimal a ++ "." ++ natDecimal b ++ "." ++ natDecimal c ++ p).data =
      m.data ++ ((natDecimal a).data ++ '.' :: ((natDecimal b).data ++ '.' ::
        ((natDecimal c).data ++ p.data))) := by
    simp [String.data_append]
  rw [parseVersion, hdata]
  simp only [VERSION_MODIFIERS, List.mem_cons, List.not_mem_nil, or_false] at hm
  rcases hm with rfl | rfl | rfl | rfl | rfl | rfl | rfl | rfl
  · exact hcore (by simp [parseModifier])
  · exact hcore (by simp [parseModifier])
  · exact hcore (by simp [parseModifier])
  · refine hcore ?_
    rw [hA]
    simp only [List.cons_append, List.nil_append]
    exact parseModifier_gt hd _
  · exact hcore (by simp [parseModifier])
  · refine hcore ?_
    rw [hA]
    simp only [List.cons_append, List.nil_append]
    exact parseModifier_lt hd _
  · exact hcore (by simp [parseModifier])
  · refine hcore ?_
    rw [hA]
    simp only [List.nil_append]
    exact parseModifier_digit _ hd

theorem parseVersion_render3 (m : String) (hm : m ∈ VERSION_MODIFIERS) (a b c : ℕ) :
    parseVersion (m ++ natDecimal a ++ "." ++ natDecimal b ++ "." ++ natDecimal c) =
      some ⟨m, natDecimal a, natDecimal b, natDecimal c, none⟩ := by
  have hempty : m ++ natDecimal a ++ "." ++ natDecimal b ++ "." ++ natDecimal c =
      m ++ natDecimal a ++ "." ++ natDecimal b ++ "." ++ natDecimal c ++ "" := by
    apply String.ext
    simp [String.data_append]
  rw [hempty, parseVersion_render m hm a b c "" (Or.inl rfl)]
  rfl

theorem render_isSome (m : String) (hm : m ∈ VERSION_MODIFIERS) (A B C : ℕ)
    (p : String) (hp : preStrOk p) :
    (parseVersion (m ++ natDecimal A ++ "." ++ natDecimal B ++ "." ++
      natDecimal C ++ p)).isSome := by
  rw [parseVersion_render m hm A B C p hp]
  rfl

theorem VERSION_MODIFIERS_getD_mem (n : ℕ) :
    VERSION_MODIFIERS.getD n "" ∈ VERSION_MODIFIERS := by
  match n with
  | 0 | 1 | 2 | 3 | 4 | 5 | 6 | 7 => decide
  | n + 8 =>
    have h : VERSION_MODIFIERS.getD (n + 8) "" = "" := by
      simp [VERSION_MODIFIERS, List.getD]
    rw [h]
    decide

theorem jsIndexMod_mem (q : ℚ) : jsIndexMod q ∈ VERSION_MODIFIERS := by
  rw [jsIndexMod]
  split_ifs with h h2
  · decide
  · exact VERSION_MODIFIERS_getD_mem _
  · decide

theorem parseModifier_mem (l : List Char) : (parseModifier l).1 ∈ VERSION_MODIFIERS := by
  rcases l with _ | ⟨c, t⟩
  · simp [parseModifier, VERSION_MODIFIERS]
  · simp only [parseModifier]
    split_ifs <;> simp [VERSION_MODIFIERS]

theorem parsePrerelease_shape {l : List Char} {o : Option String}
    (h : parsePrerelease l = some o) : preStrOk (o.getD "") := by
  rcases l with _ | ⟨c, t⟩
  · simp only [parsePrerelease, Option.some.injEq] at h
    subst h
    exact Or.inl rfl
  · simp only [parsePrerelease] at h
    split_ifs at h with h1 h2
    · subst h1
      injection h with h
      subst h
      exact Or.inr ⟨t, rfl, h2.1, h2.2⟩

theorem parseVersion_shape {s : String} {pv : ParsedVersion}
    (h : parseVersion s = some pv) :
    pv.modifier ∈ VERSION_MODIFIERS ∧ preStrOk (pv.prerelease.getD "") := by
  rw [parseVersion] at h
  simp only [parseVersionChars] at h
  split_ifs at h
  split at h
  · split_ifs at h
    split at h
    · split_ifs at h
      split at h
      · rename_i hpre
        injection h with h
        subst h
        exact ⟨parseModifier_mem _, parsePrerelease_shape hpre⟩
      · cases h
    · cases h
  · cases h

theorem rngOk_jsRandom {rng : List ℚ} (h : rngOk rng) : rngOk (jsRandom rng).2 :=
  (jsRandom_ok h).2

/-! ## Mutator lemmas -/

theorem cvwcModifier_mem (m : String) (rng : List ℚ) :
    (cvwcModifier m rng).1 ∈ VERSION_MODIFIERS := by
  rw [cvwcModifier]
  split_ifs
  all_goals
    dsimp only
    split_ifs <;> decide

theorem cvwcModifier_rngOk (m : String) {rng : List ℚ} (h : rngOk rng) :
    rngOk (cvwcModifier m rng).2 := by
  rw [cvwcModifier]
  split_ifs <;> exact rngOk_jsRandom h

theorem safeJN_bounds {j : JNum} (h : safeJN j = true) :
    ∃ x : ℤ, j = some x ∧ 0 ≤ x ∧ x + 16 < 2 ^ 53 := by
  cases j with
  | none => cases h
  | some x =>
    simp only [safeJN, Bool.and_eq_true, decide_eq_true_eq] at h
    exact ⟨x, rfl, h.1, h.2⟩

theorem safePV_bounds {pv : ParsedVersion} (h : safePV pv = true) :
    digitsToNat pv.major.data + 16 < 2 ^ 53 ∧
    digitsToNat pv.minor.data + 16 < 2 ^ 53 ∧
    digitsToNat pv.patch.data + 16 < 2 ^ 53 := by
  simp only [safePV, Bool.and_eq_true, decide_eq_true_eq] at h
  exact ⟨h.1.1, h.1.2, h.2⟩

theorem cvwcNumbers_shape {b c : ℤ} (hb0 : 0 ≤ b) (hb : b + 13 < 2 ^ 53)
    (hc0 : 0 ≤ c) (hc : c + 13 < 2 ^ 53) {rng : List ℚ} (hr : rngOk rng) :
    ∃ b' c' : ℤ, (cvwcNumbers (some b) (some c) rng).1 = some b' ∧
      (cvwcNumbers (some b) (some c) rng).2.1 = some c' ∧
      0 ≤ b' ∧ b' < 2 ^ 53 ∧ 0 ≤ c' ∧ c' < 2 ^ 53 := by
  have hq := (jsRandom_ok (rngOk_jsRandom hr)).1
  have hfl5 := floor_draw_bound hq.1 hq.2 5 5 (by norm_num) (by norm_num)
  have hfl10 := floor_draw_bound hq.1 hq.2 10 10 (by norm_num) (by norm_num)
  rw [p53i] at hb hc
  rw [cvwcNumbers]
  simp only [apply_ite Prod.fst, apply_ite Prod.snd]
  split_ifs with h1 hs1 hs2
  · obtain ⟨heq, hge, hle⟩ := jBump_shape hb0
      (show ((⌊(jsRandom (jsRandom rng).2).1 * 5⌋ + 1 : ℤ)).natAbs ≤ 13 by omega)
      (by rw [p53i]; omega)
    exact ⟨_, c, heq, rfl, hge, by rw [p53i]; omega, hc0, by rw [p53i]; omega⟩
  · obtain ⟨heq, hge, hle⟩ := jBump_shape hb0
      (show ((-(⌊(jsRandom (jsRandom rng).2).1 * 5⌋ + 1) : ℤ)).natAbs ≤ 13 by
        simp only [Int.natAbs_neg]; omega)
      (by rw [p53i]; omega)
    exact ⟨_, c, heq, rfl, hge, by rw [p53i]; omega, hc0, by rw [p53i]; omega⟩
  · obtain ⟨heq, hge, hle⟩ := jBump_shape hc0
      (show ((⌊(jsRandom (jsRandom rng).2).1 * 10⌋ + 1 : ℤ)).natAbs ≤ 13 by omega)
      (by rw [p53i]; omega)
    exact ⟨b, _, rfl, heq, hb0, by rw [p53i]; omega, hge, by rw [p53i]; omega⟩
  · obtain ⟨heq, hge, hle⟩ := jBump_shape hc0
      (show ((-(⌊(jsRandom (jsRandom rng).2).1 * 10⌋ + 1) : ℤ)).natAbs ≤ 13 by
        simp only [Int.natAbs_neg]; omega)
      (by rw [p53i]; omega)
    exact ⟨b, _, rfl, heq, hb0, by rw [p53i]; omega, hge, by rw [p53i]; omega⟩

/-- Whatever the draws, `createVersionWithinConstraint` on safe, finite
components emits a well-formed specifier whose major is exactly the
constraint's major. -/
theorem createVersionWithinConstraint_parse (m : String) (hm : m ∈ VERSION_MODIFIERS)
    {a b c : ℤ} (ha0 : 0 ≤ a) (ha : a < 2 ^ 53) (hb0 : 0 ≤ b) (hb : b + 13 < 2 ^ 53)
    (hc0 : 0 ≤ c) (hc : c + 13 < 2 ^ 53) (aggr : ℚ) {rng : List ℚ} (hr : rngOk rng) :
    ∃ (m' : String) (b' c' : ℕ), m' ∈ VERSION_MODIFIERS ∧
      parseVersion (createVersionWithinConstraint m (some a) (some b) (some c) aggr rng).1 =
        some ⟨m', natDecimal a.toNat, natDecimal b', natDecimal c', none⟩ := by
  rw [createVersionWithinConstraint]
  split_ifs with h1
  · obtain ⟨b', c', hEb, hEc, hb'0, hb'53, hc'0, hc'53⟩ :=
      cvwcNumbers_shape hb0 hb hc0 hc
        (cvwcModifier_rngOk m (rngOk_jsRandom hr))
    dsimp only
    rw [hEb, hEc, jsNumStr_small ha0 ha, jsNumStr_small hb'0 hb'53,
        jsNumStr_small hc'0 hc'53]
    exact ⟨_, b'.toNat, c'.toNat, cvwcModifier_mem _ _,
      parseVersion_render3 _ (cvwcModifier_mem _ _) a.toNat b'.toNat c'.toNat⟩
  · rw [jsNumStr_small ha0 ha, jsNumStr_small hb0 (by rw [p53i] at hb ⊢; omega),
        jsNumStr_small hc0 (by rw [p53i] at hc ⊢; omega)]
    exact ⟨m, b.toNat, c.toNat, hm, parseVersion_render3 m hm a.toNat b.toNat c.toNat⟩

theorem fmModifier_mem (scaled : ℚ) (m0 : String) (hm : m0 ∈ VERSION_MODIFIERS)
    (b : Bool) (rng : List ℚ) : (fmModifier scaled m0 b rng).1 ∈ VERSION_MODIFIERS := by
  rw [fmModifier]
  simp only [apply_ite Prod.fst]
  split_ifs <;> first | exact hm | decide | exact jsIndexMod_mem _

theorem fmModifier_rngOk (scaled : ℚ) (m0 : String) (b : Bool) {rng : List ℚ}
    (h : rngOk rng) : rngOk (fmModifier scaled m0 b rng).2 := by
  rw [fmModifier]
  simp only [apply_ite Prod.snd]
  split_ifs <;>
    first
      | exact rngOk_jsRandom h
      | exact rngOk_jsRandom (rngOk_jsRandom h)
      | exact rngOk_jsRandom (rngOk_jsRandom (rngOk_jsRandom h))

theorem fmNumbers_shape (scaled modType : ℚ) (am : Bool) {a b c : ℤ}
    (ha0 : 0 ≤ a) (hb0 : 0 ≤ b) (hc0 : 0 ≤ c)
    (ha : a + 13 < 2 ^ 53) (hb : b + 13 < 2 ^ 53) (hc : c + 13 < 2 ^ 53)
    {rng : List ℚ} (hr : rngOk rng) :
    ∃ a' b' c' : ℤ,
      (fmNumbers scaled modType am (some a) (some b) (some c) rng).1 = some a' ∧
      (fmNumbers scaled modType am (some a) (some b) (some c) rng).2.1 = some b' ∧
      (fmNumbers scaled modType am (some a) (some b) (some c) rng).2.2.1 = some c' ∧
      0 ≤ a' ∧ a' < 2 ^ 53 ∧ 0 ≤ b' ∧ b' < 2 ^ 53 ∧ 0 ≤ c' ∧ c' ≤ c + 10 := by
  have hq := (jsRandom_ok (rngOk_jsRandom hr)).1
  have hfl3 := floor_draw_bound hq.1 hq.2 3 3 (by norm_num) (by norm_num)
  have hfl5 := floor_draw_bound hq.1 hq.2 5 5 (by norm_num) (by norm_num)
  have hfl10 := floor_draw_bound hq.1 hq.2 10 10 (by norm_num) (by norm_num)
  rw [p53i] at ha hb hc
  rw [fmNumbers]
  simp only [apply_ite Prod.fst, apply_ite Prod.snd]
  split_ifs with h1 h2 hs1 h3 hs2 hs3
  · obtain ⟨heq, hge, hle⟩ := jBump_shape ha0
      (show ((⌊(jsRandom (jsRandom rng).2).1 * 3⌋ + 1 : ℤ)).natAbs ≤ 13 by omega)
      (by rw [p53i]; omega)
    exact ⟨_, b, c, heq, rfl, rfl, hge, by rw [p53i]; omega, hb0,
      by rw [p53i]; omega, hc0, by omega⟩
  · obtain ⟨heq, hge, hle⟩ := jBump_shape ha0
      (show ((-(⌊(jsRandom (jsRandom rng).2).1 * 3⌋ + 1) : ℤ)).natAbs ≤ 13 by
        simp only [Int.natAbs_neg]; omega)
      (by rw [p53i]; omega)
    exact ⟨_, b, c, heq, rfl, rfl, hge, by rw [p53i]; omega, hb0,
      by rw [p53i]; omega, hc0, by omega⟩
  · obtain ⟨heq, hge, hle⟩ := jBump_shape hb0
      (show ((⌊(jsRandom (jsRandom rng).2).1 * 5⌋ + 1 : ℤ)).natAbs ≤ 13 by omega)
      (by rw [p53i]; omega)
    exact ⟨a, _, c, rfl, heq, rfl, ha0, by rw [p53i]; omega, hge,
      by rw [p53i]; omega, hc0, by omega⟩
  · obtain ⟨heq, hge, hle⟩ := jBump_shape hb0
      (show ((-(⌊(jsRandom (jsRandom rng).2).1 * 5⌋ + 1) : ℤ)).natAbs ≤ 13 by
        simp only [Int.natAbs_neg]; omega)
      (by rw [p53i]; omega)
    exact ⟨a, _, c, rfl, heq, rfl, ha0, by rw [p53i]; omega, hge,
      by rw [p53i]; omega, hc0, by omega⟩
  · obtain ⟨heq, hge, hle⟩ := jBump_shape hc0
      (show ((⌊(jsRandom (jsRandom rng).2).1 * 10⌋ + 1 : ℤ)).natAbs ≤ 13 by omega)
      (by rw [p53i]; omega)
    exact ⟨a, b, _, rfl, rfl, heq, ha0, by rw [p53i]; omega, hb0,
      by rw [p53i]; omega, hge, by omega⟩
  · obtain ⟨heq, hge, hle⟩ := jBump_shape hc0
      (show ((-(⌊(jsRandom (jsRandom rng).2).1 * 10⌋ + 1) : ℤ)).natAbs ≤ 13 by
        simp only [Int.natAbs_neg]; omega)
      (by rw [p53i]; omega)
    exact ⟨a, b, _, rfl, rfl, heq, ha0, by rw [p53i]; omega, hb0,
      by rw [p53i]; omega, hge, by omega⟩
  · exact ⟨a, b, c, rfl, rfl, rfl, ha0, by rw [p53i]; omega, hb0,
      by rw [p53i]; omega, hc0, by omega⟩

theorem fmNumbers_rngOk (scaled modType : ℚ) (am : Bool) (a0 b0 c0 : JNum)
    {rng : List ℚ} (h : rngOk rng) :
    rngOk (fmNumbers scaled modType am a0 b0 c0 rng).2.2.2 := by
  rw [fmNumbers]
  simp only [apply_ite Prod.snd]
  split_ifs <;>
    first
      | exact rngOk_jsRandom h
      | exact rngOk_jsRandom (rngOk_jsRandom (rngOk_jsRandom h))

theorem fmRealistic_shape (scaled : ℚ) (bI : Bool) (m : String)
    (hm : m ∈ VERSION_MODIFIERS) {p : ℤ} (hp0 : 0 ≤ p) (hp : p + 3 < 2 ^ 53)
    {rng : List ℚ} (hr : rngOk rng) :
    (fmRealistic scaled bI m (some p) rng).1 ∈ VERSION_MODIFIERS ∧
    ∃ p' : ℤ, (fmRealistic scaled bI m (some p) rng).2.1 = some p' ∧
      0 ≤ p' ∧ p' < 2 ^ 53 := by
  have hq := (jsRandom_ok (rngOk_jsRandom (rngOk_jsRandom hr))).1
  have hfl := floor_draw_bound hq.1 hq.2 3 3 (by norm_num) (by norm_num)
  rw [p53i] at hp
  rw [fmRealistic]
  simp only [apply_ite Prod.fst, apply_ite Prod.snd]
  split_ifs with h1 h2 h3
  · refine ⟨by decide, p + 1 + ⌊(jsRandom (jsRandom (jsRandom rng).2).2).1 * 3⌋,
      ?_, by omega, by rw [p53i]; omega⟩
    rw [jAddC_small (by rw [p53n]; omega), jAddC_small (by rw [p53n]; omega)]
  · exact ⟨by decide, p, rfl, hp0, by rw [p53i]; omega⟩
  · exact ⟨hm, p, rfl, hp0, by rw [p53i]; omega⟩
  · exact ⟨hm, p, rfl, hp0, by rw [p53i]; omega⟩

/-- Whatever the draws within the `[0,1)` contract, free mutation of a
parsed specifier with safe components emits a well-formed specifier. -/
theorem freeMutation_parse (pv : ParsedVersion) (hm : pv.modifier ∈ VERSION_MODIFIERS)
    (hpre : preStrOk (pv.prerelease.getD "")) (hsafe : safePV pv = true)
    (aggr : ℚ) (opts : MutOpts) {rng : List ℚ} (hr : rngOk rng) :
    (parseVersion (freeMutation pv aggr opts rng).1).isSome := by
  obtain ⟨hA, hB, hC⟩ := safePV_bounds hsafe
  rw [freeMutation]
  dsimp only
  rw [num_small (by rw [p53n] at hA ⊢; omega), num_small (by rw [p53n] at hB ⊢; omega),
      num_small (by rw [p53n] at hC ⊢; omega)]
  obtain ⟨a', b', c', hEa, hEb, hEc, ha'0, ha'53, hb'0, hb'53, hc'0, hc'le⟩ :=
    fmNumbers_shape (aggr / 10) (jsRandom rng).1 _
      (Int.natCast_nonneg _) (Int.natCast_nonneg _) (Int.natCast_nonneg _)
      (show ((digitsToNat pv.major.data : ℕ) : ℤ) + 13 < 2 ^ 53 by
        rw [p53i]; rw [p53n] at hA; omega)
      (show ((digitsToNat pv.minor.data : ℕ) : ℤ) + 13 < 2 ^ 53 by
        rw [p53i]; rw [p53n] at hB; omega)
      (show ((digitsToNat pv.patch.data : ℕ) : ℤ) + 13 < 2 ^ 53 by
        rw [p53i]; rw [p53n] at hC; omega)
      (fmModifier_rngOk (aggr / 10) pv.modifier _ (rngOk_jsRandom hr))
  rw [hEa, hEb, hEc]
  have hrr := fmNumbers_rngOk (aggr / 10) (jsRandom rng).1
    (decide (opts.respectMajorVersion = false ∧
      (decide (opts.conflictMode = some "realistic") : Bool) = false))
    (some ((digitsToNat pv.major.data : ℕ) : ℤ))
    (some ((digitsToNat pv.minor.data : ℕ) : ℤ))
    (some ((digitsToNat pv.patch.data : ℕ) : ℤ))
    (fmModifier_rngOk (aggr / 10) pv.modifier
      (decide (opts.conflictMode = some "realistic")) (rngOk_jsRandom hr))
  obtain ⟨hmem', p', hEp, hp'0, hp'53⟩ :=
    fmRealistic_shape (aggr / 10) (decide (opts.conflictMode = some "realistic"))
      (fmModifier (aggr / 10) pv.modifier
        (decide (opts.conflictMode = some "realistic")) (jsRandom rng).2).1
      (fmModifier_mem (aggr / 10) pv.modifier hm
        (decide (opts.conflictMode = some "realistic")) (jsRandom rng).2)
      hc'0
      (show c' + 3 < 2 ^ 53 by rw [p53i]; rw [p53n] at hC; omega)
      hrr
  rw [hEp, jsNumStr_small ha'0 ha'53, jsNumStr_small hb'0 hb'53,
      jsNumStr_small hp'0 hp'53]
  exact render_isSome _ hmem' a'.toNat b'.toNat p'.toNat _ hpre

theorem constraintFor_shape {pn : Option String} {vc : Option (List (String × String))}
    {parts : String × JNum × JNum × JNum} (h : constraintFor pn vc = some parts) :
    parts.1 ∈ VERSION_MODIFIERS := by
  unfold constraintFor at h
  rcases pn with _ | pn
  · cases h
  rcases vc with _ | vc
  · cases h
  dsimp only at h
  split_ifs at h
  split at h
  · split_ifs at h
    split at h
    · split_ifs at h
      split at h
      · rename_i hparse
        injection h with h
        subst h
        exact (parseVersion_shape hparse).1
      · cases h
    · cases h
  · cases h

theorem cfSafe_bounds {pn : Option String} {vc : Option (List (String × String))}
    {cm : String} {a b c : JNum}
    (hcf : constraintFor pn vc = some (cm, a, b, c)) (hs : cfSafe pn vc = true) :
    (∃ x : ℤ, a = some x ∧ 0 ≤ x ∧ x + 16 < 2 ^ 53) ∧
    (∃ x : ℤ, b = some x ∧ 0 ≤ x ∧ x + 16 < 2 ^ 53) ∧
    (∃ x : ℤ, c = some x ∧ 0 ≤ x ∧ x + 16 < 2 ^ 53) := by
  simp only [cfSafe, hcf, Bool.and_eq_true] at hs
  exact ⟨safeJN_bounds hs.1.1, safeJN_bounds hs.1.2, safeJN_bounds hs.2⟩

/-! ## Claims about the Mutator -/

/-- C1: an input that does not match the version-specifier grammar is
returned by `scrambleVersion` exactly unchanged (with no draw consumed),
for every aggression level and every combination of hints. -/
theorem C1_opaque_specifier_unchanged (v : String) (aggr : ℚ) (opts : MutOpts)
    (rng : List ℚ) (h : parseVersion v = none) :
    scrambleVersion v aggr opts rng = (v, rng) := by
  rw [scrambleVersion, h]

/-- Witness for C1 at the opaque specifier `"latest"`. -/
theorem C1_witness :
    parseVersion "latest" = none ∧
      scrambleVersion "latest" 10
        { respectMajorVersion := false, packageName := some "latest",
          versionConstraints := some [("latest", "^1.0.0")],
          conflictMode := some "realistic" } [1/2, 0] = ("latest", [1/2, 0]) :=
  ⟨by decide, C1_opaque_specifier_unchanged "latest" 10 _ _ (by decide)⟩

/-- C2 (amended): for every specifier matching the version grammar whose
numeric components are below `2^53 - 16` — so that `Number`, the
offsets of at most 13 and `String` are all exact — and whose applicable
constraint (if any) has components in the same range, every aggression
level, hints, and draw sequence within `Math.random`'s `[0,1)` contract
yield an output of `scrambleVersion` (free path or the constraint path
through `createVersionWithinConstraint`) that again matches the version
grammar.  Outside that range JS `Number`/`String` rounding and
exponential formatting can produce a malformed specifier — see the
counterexample at `"1000000000000000000000.0.0"`. -/
theorem C2_mutated_specifier_wellformed (v : String) (pv : ParsedVersion)
    (hv : parseVersion v = some pv) (hsafe : safePV pv = true) (aggr : ℚ)
    (opts : MutOpts) (hcs : cfSafe opts.packageName opts.versionConstraints = true)
    (rng : List ℚ) (hr : rngOk rng) :
    (parseVersion (scrambleVersion v aggr opts rng).1).isSome := by
  obtain ⟨hm, hpre⟩ := parseVersion_shape hv
  rw [scrambleVersion, hv]
  rcases hcf : constraintFor opts.packageName opts.versionConstraints with _ | ⟨cm, ca, cb, cc⟩
  · exact freeMutation_parse pv hm hpre hsafe aggr opts hr
  · obtain ⟨⟨a', hae, ha0, ha53⟩, ⟨b', hbe, hb0, hb53⟩, ⟨c', hce, hc0, hc53⟩⟩ :=
      cfSafe_bounds hcf hcs
    subst hae hbe hce
    obtain ⟨m', b₂, c₂, hm', hps⟩ :=
      createVersionWithinConstraint_parse cm (constraintFor_shape hcf) ha0
        (by rw [p53i] at ha53 ⊢; omega) hb0 (by rw [p53i] at hb53 ⊢; omega)
        hc0 (by rw [p53i] at hc53 ⊢; omega) aggr hr
    rw [hps]
    rfl

/-- C5 (amended): when `scrambleVersion`'s constraint lookup succeeds
for the package and the constraint's components are exact doubles
(below `2^53 - 16`), the mutated specifier's numeric major version is
exactly the constraint's major, whatever the draws.  `Number` rounds
larger constraint majors before the mutation even starts, and the
Conflict Strategist never reads `versionConstraints` at all (line 286
destructures only `aggressionLevel` and `conflictMode`) and can write a
different major for a constrained package — see the counterexample. -/
theorem C5_constraint_path_preserves_major (v : String) (pv : ParsedVersion)
    (hv : parseVersion v = some pv) (aggr : ℚ) (opts : MutOpts) (cm : String)
    (ca : ℤ) (cb cc : JNum)
    (hcf : constraintFor opts.packageName opts.versionConstraints = some (cm, some ca, cb, cc))
    (hsafe : cfSafe opts.packageName opts.versionConstraints = true)
    (rng : List ℚ) (hr : rngOk rng) :
    (parseVersion (scrambleVersion v aggr opts rng).1).map (fun q => num q.major) =
      some (some ca) := by
  obtain ⟨⟨a', hae, ha0, ha53⟩, ⟨b', hbe, hb0, hb53⟩, ⟨c', hce, hc0, hc53⟩⟩ :=
    cfSafe_bounds hcf hsafe
  obtain rfl : ca = a' := by injection hae with h
  subst hbe hce
  rw [scrambleVersion, hv, hcf]
  obtain ⟨m', b₂, c₂, hm', hps⟩ :=
    createVersionWithinConstraint_parse cm (constraintFor_shape hcf) ha0
      (by rw [p53i] at ha53 ⊢; omega) hb0 (by rw [p53i] at hb53 ⊢; omega)
      hc0 (by rw [p53i] at hc53 ⊢; omega) aggr hr
  rw [hps]
  simp only [Option.map_some']
  rw [show num (natDecimal ca.toNat) = some ((ca.toNat : ℕ) : ℤ) from
    num_natDecimal (by rw [p53n]; rw [p53i] at ha53; omega)]
  rw [Int.toNat_of_nonneg ha0]

/-! ## Selector lemmas: the sort permutes, hence preserves length. -/

theorem countAndMakeRun_length (l : List String) (rng : List ℚ) :
    (countAndMakeRun l rng).2.1.length = l.length := by
  match l with
  | [] => rfl
  | [x] => rfl
  | x :: y :: t =>
    simp only [countAndMakeRun]
    split_ifs
    · simp only [List.length_append, List.length_reverse, List.length_take,
        List.length_drop, List.length_cons]
      omega
    · rfl

theorem binSearchAux_bounds : ∀ (fuel left right : ℕ) (rng : List ℚ), left ≤ right →
    left ≤ (binSearchAux fuel left right rng).1 ∧
      (binSearchAux fuel left right rng).1 ≤ right := by
  intro fuel
  induction fuel with
  | zero => intro l r rng h; exact ⟨le_refl _, h⟩
  | succ f ih =>
    intro l r rng h
    rw [binSearchAux]
    split_ifs with hlr
    · dsimp only
      split_ifs with hc
      · have hh := ih l (l + (r - l) / 2) (sortCompare rng).2 (by omega)
        exact ⟨hh.1, by omega⟩
      · have hh := ih (l + (r - l) / 2 + 1) r (sortCompare rng).2 (by omega)
        exact ⟨by omega, hh.2⟩
    · exact ⟨le_refl _, h⟩

theorem insertAt_length (arr : List String) (start left : ℕ)
    (h1 : left ≤ start) (h2 : start < arr.length) :
    (insertAt arr start left).length = arr.length := by
  rw [insertAt]
  simp only [List.length_append, List.length_take, List.length_cons, List.length_drop]
  omega

theorem binInsertLoop_length : ∀ (fuel : ℕ) (arr : List String) (start : ℕ)
    (rng : List ℚ), (binInsertLoop fuel arr start rng).1.length = arr.length := by
  intro fuel
  induction fuel with
  | zero => intro arr start rng; rfl
  | succ f ih =>
    intro arr start rng
    rw [binInsertLoop]
    split_ifs with h
    · rw [ih, insertAt_length]
      · exact (binSearchAux_bounds start 0 start rng (Nat.zero_le _)).2
      · exact h
    · rfl

theorem jsSortRandom_length (l : List String) (rng : List ℚ) :
    ((jsSortRandom l rng).1).length = l.length := by
  simp only [jsSortRandom]
  split_ifs with h1 h2
  · rfl
  · rw [binInsertLoop_length, countAndMakeRun_length]
  · rw [countAndMakeRun_length]

/-! ## The scramble-count arithmetic
`Math.ceil((E * P) / 100)` in doubles agrees with the exact ceiling for
whole-number percentages and at most 63 entries: the product is an
exact integer, and the rounding error of the division (at most half an
ulp, below 2^-34 at these magnitudes) cannot bridge the 1/100 gap
between the exact quotient and its neighbouring integers.  For
fractional percentages the two can differ — see the C3
counterexample. -/

theorem natLog2Aux_le : ∀ (fuel n c : ℕ), n < 2 ^ (c + 1) → natLog2Aux fuel n ≤ c := by
  intro fuel
  induction fuel with
  | zero => intro n c _; exact Nat.zero_le c
  | succ f ih =>
    intro n c h
    rw [natLog2Aux]
    split_ifs with h2
    · exact Nat.zero_le c
    · cases c with
      | zero =>
        exfalso
        simp at h
        omega
      | succ c =>
        have hdiv : n / 2 < 2 ^ (c + 1) := by
          rw [Nat.div_lt_iff_lt_mul (by norm_num)]
          calc n < 2 ^ (c + 1 + 1) := h
            _ = 2 ^ (c + 1) * 2 := by ring
        exact Nat.succ_le_succ (ih (n / 2) c hdiv)

theorem natLog2_le {n c : ℕ} (h : n < 2 ^ (c + 1)) : natLog2 n ≤ c :=
  natLog2Aux_le n n c h

theorem pow2z_pos (e : ℤ) : 0 < pow2z e := by
  rw [pow2z]
  split_ifs <;> positivity

theorem pow2z_nonpos {m : ℤ} (h : m ≤ 0) : pow2z m = 1 / ((2 ^ (-m).toNat : ℕ) : ℚ) := by
  rw [pow2z]
  rcases eq_or_lt_of_le h with rfl | hlt
  · norm_num
  · rw [if_neg (by omega)]

theorem pow2z_le_neg {k : ℕ} {e : ℤ} (h : e ≤ -(k : ℤ)) : pow2z e ≤ 1 / 2 ^ k := by
  rw [pow2z_nonpos (by omega)]
  have hk : k ≤ (-e).toNat := by omega
  have h2 : (2 : ℚ) ^ k ≤ ((2 ^ (-e).toNat : ℕ) : ℚ) := by
    push_cast
    exact pow_le_pow_right₀ (by norm_num) hk
  have hp : (0 : ℚ) < 2 ^ k := by positivity
  rw [div_le_div_iff₀ (by positivity) hp]
  nlinarith

theorem roundTiesEven_intCast (z : ℤ) : roundTiesEven (z : ℚ) = z := by
  rw [roundTiesEven, Int.floor_intCast]
  rw [if_pos (by norm_num)]

theorem roundTiesEven_err (r : ℚ) : |(roundTiesEven r : ℚ) - r| ≤ 1 / 2 := by
  have h1 := Int.floor_le r
  have h2 := Int.lt_floor_add_one r
  rw [roundTiesEven]
  split_ifs with hA hB hC
  · rw [abs_sub_comm, abs_of_nonneg (by linarith)]
    linarith
  · rw [abs_of_nonneg (by push_cast; linarith)]
    push_cast
    linarith
  · rw [abs_sub_comm, abs_of_nonneg (by linarith)]
    linarith
  · rw [abs_of_nonneg (by push_cast; linarith)]
    push_cast
    linarith

theorem flQ_pos_eq {a : ℚ} (ha : 0 < a) :
    flQ a = (roundTiesEven (a / pow2z (flStep a)) : ℚ) * pow2z (flStep a) := by
  rw [flQ, if_neg (by linarith), if_neg (by linarith)]

theorem flQ_eq_self_of_int {a : ℚ} (ha : 0 < a) (z : ℤ)
    (hz : a / pow2z (flStep a) = (z : ℚ)) : flQ a = a := by
  rw [flQ_pos_eq ha, hz, roundTiesEven_intCast]
  have hp := pow2z_pos (flStep a)
  field_simp at hz
  linarith [hz]

theorem qLog2_le_num {a : ℚ} {c : ℕ} (h : a.num.natAbs < 2 ^ (c + 1)) :
    qLog2 a ≤ (c : ℤ) := by
  have h1 : natLog2 a.num.natAbs ≤ c := natLog2_le h
  rw [qLog2]
  split_ifs <;> omega

theorem qLog2_natCast_le {n c : ℕ} (h : n < 2 ^ (c + 1)) : qLog2 (n : ℚ) ≤ (c : ℤ) := by
  apply qLog2_le_num
  rw [Rat.num_natCast]
  simpa using h

theorem flQ_natCast {n : ℕ} (h : n ≤ 2 ^ 52) : flQ (n : ℚ) = n := by
  rcases Nat.eq_zero_or_pos n with rfl | hn
  · simp [flQ]
  · have ha : 0 < (n : ℚ) := by exact_mod_cast hn
    have hq : qLog2 (n : ℚ) ≤ (52 : ℤ) := by
      apply qLog2_natCast_le
      calc n ≤ 2 ^ 52 := h
        _ < 2 ^ (52 + 1) := by norm_num
    have hm : flStep (n : ℚ) ≤ 0 := by
      rw [flStep]
      omega
    apply flQ_eq_self_of_int ha ((n : ℤ) * 2 ^ ((-(flStep (n : ℚ))).toNat))
    rw [pow2z_nonpos hm]
    push_cast
    field_simp

theorem flQ_err {a : ℚ} (ha : 0 < a) :
    |flQ a - a| ≤ pow2z (flStep a) / 2 := by
  rw [flQ_pos_eq ha]
  have hp := pow2z_pos (flStep a)
  have key : (roundTiesEven (a / pow2z (flStep a)) : ℚ) * pow2z (flStep a) - a =
      ((roundTiesEven (a / pow2z (flStep a)) : ℚ) - a / pow2z (flStep a)) *
        pow2z (flStep a) := by
    field_simp
  rw [key, abs_mul, abs_of_pos hp]
  calc |(roundTiesEven (a / pow2z (flStep a)) : ℚ) - a / pow2z (flStep a)| *
        pow2z (flStep a) ≤ (1 / 2) * pow2z (flStep a) :=
      mul_le_mul_of_nonneg_right (roundTiesEven_err _) hp.le
    _ = pow2z (flStep a) / 2 := by ring

theorem div100_floor_parts {t : ℕ} :
    (t : ℚ) / 100 = (t / 100 : ℕ) + ((t % 100 : ℕ) : ℚ) / 100 := by
  have hmod : 100 * (t / 100) + t % 100 = t := Nat.div_add_mod t 100
  have hcast : (t : ℚ) = 100 * ((t / 100 : ℕ) : ℚ) + ((t % 100 : ℕ) : ℚ) := by
    exact_mod_cast congrArg (fun n : ℕ => (n : ℚ)) hmod.symm
  rw [hcast]
  ring

theorem ceil_transfer {t : ℕ} (h1 : ¬ (100 ∣ t)) {b : ℚ}
    (herr : |b - (t : ℚ) / 100| ≤ 1 / 2 ^ 34) : ⌈b⌉ = ⌈(t : ℚ) / 100⌉ := by
  have heq := div100_floor_parts (t := t)
  have hr1 : 1 ≤ t % 100 := by omega
  have hr99 : t % 100 ≤ 99 := by omega
  have habs := abs_le.mp herr
  have hlow : (1 : ℚ) / 100 ≤ ((t % 100 : ℕ) : ℚ) / 100 := by
    have h := hr1
    have hq : (1 : ℚ) ≤ ((t % 100 : ℕ) : ℚ) := by exact_mod_cast h
    linarith
  have hhigh : ((t % 100 : ℕ) : ℚ) / 100 ≤ 99 / 100 := by
    have h := hr99
    have hq : ((t % 100 : ℕ) : ℚ) ≤ 99 := by exact_mod_cast h
    linarith
  have hceil : ⌈(t : ℚ) / 100⌉ = ((t / 100 : ℕ) : ℤ) + 1 := by
    rw [Int.ceil_eq_iff]
    refine ⟨?_, ?_⟩
    · simp only [Int.cast_add, Int.cast_natCast, Int.cast_one]
      rw [heq]
      linarith
    · simp only [Int.cast_add, Int.cast_natCast, Int.cast_one]
      rw [heq]
      linarith
  rw [hceil, Int.ceil_eq_iff]
  obtain ⟨hab1, hab2⟩ := habs
  rw [heq] at hab1 hab2
  refine ⟨?_, ?_⟩
  · simp only [Int.cast_add, Int.cast_natCast, Int.cast_one]
    linarith
  · simp only [Int.cast_add, Int.cast_natCast, Int.cast_one]
    linarith

theorem flQ_div100_ceil {t : ℕ} (h1 : 1 ≤ t) (h2 : t ≤ 6300) :
    ⌈flQ ((t : ℚ) / 100)⌉ = ⌈(t : ℚ) / 100⌉ := by
  by_cases hdvd : (100 ∣ t)
  · have heq : (t : ℚ) / 100 = ((t / 100 : ℕ) : ℚ) := by
      rw [Nat.cast_div hdvd (by norm_num)]
      norm_num
    rw [heq, flQ_natCast (by omega)]
  · have ha : (0 : ℚ) < (t : ℚ) / 100 := by positivity
    apply ceil_transfer hdvd
    have hnum : ((t : ℚ) / 100).num.natAbs ≤ t := by
      have hdvd2 : ((t : ℚ) / 100).num ∣ (t : ℤ) := by
        rw [show (t : ℚ) / 100 = ((t : ℤ) : ℚ) / ((100 : ℤ) : ℚ) by push_cast; ring,
            Rat.intCast_div_eq_divInt]
        exact Rat.num_dvd _ (by norm_num)
      have hdvd3 : ((t : ℚ) / 100).num.natAbs ∣ t := by
        have := Int.natAbs_dvd_natAbs.mpr hdvd2
        simpa using this
      exact Nat.le_of_dvd h1 hdvd3
    have hq : qLog2 ((t : ℚ) / 100) ≤ (19 : ℤ) := by
      apply qLog2_le_num
      calc ((t : ℚ) / 100).num.natAbs ≤ t := hnum
        _ < 2 ^ (19 + 1) := by omega
    have hstep : flStep ((t : ℚ) / 100) ≤ -(33 : ℤ) := by
      rw [flStep]
      omega
    have hpow : pow2z (flStep ((t : ℚ) / 100)) ≤ 1 / 2 ^ 33 := pow2z_le_neg hstep
    calc |flQ ((t : ℚ) / 100) - (t : ℚ) / 100| ≤ pow2z (flStep ((t : ℚ) / 100)) / 2 :=
        flQ_err ha
      _ ≤ (1 / 2 ^ 33) / 2 := by linarith
      _ = 1 / 2 ^ 34 := by norm_num

theorem scrambleCount_exact (E P : ℕ) (hE1 : 1 ≤ E) (hE : E ≤ 63) (hP1 : 1 ≤ P)
    (hP : P ≤ 100) :
    ⌈flQ (flQ ((E : ℚ) * (P : ℚ)) / 100)⌉ = ⌈((E : ℚ) * (P : ℚ)) / 100⌉ ∧
    0 < ⌈((E : ℚ) * (P : ℚ)) / 100⌉ ∧ ⌈((E : ℚ) * (P : ℚ)) / 100⌉ ≤ (E : ℤ) := by
  have hcast : (E : ℚ) * (P : ℚ) = ((E * P : ℕ) : ℚ) := by push_cast; ring
  have hEP1 : 1 ≤ E * P := Nat.one_le_iff_ne_zero.mpr (by positivity)
  have hEP : E * P ≤ 6300 := Nat.mul_le_mul hE hP
  refine ⟨?_, ?_, ?_⟩
  · rw [hcast, flQ_natCast (by omega)]
    exact flQ_div100_ceil hEP1 hEP
  · apply Int.ceil_pos.mpr
    apply div_pos _ (by norm_num)
    have h1 : (0 : ℚ) < (E : ℚ) := by exact_mod_cast hE1
    have h2 : (0 : ℚ) < (P : ℚ) := by exact_mod_cast hP1
    exact mul_pos h1 h2
  · apply Int.ceil_le.mpr
    rw [div_le_iff₀ (by norm_num : (0 : ℚ) < 100)]
    have h1 : (P : ℚ) ≤ 100 := by exact_mod_cast hP
    have h2 : (0 : ℚ) ≤ (E : ℚ) := by positivity
    calc (E : ℚ) * (P : ℚ) ≤ (E : ℚ) * 100 := by nlinarith
      _ = ((E : ℤ) : ℚ) * 100 := by push_cast; ring

/-- C3 (amended): for a category with `E` entries (`1 ≤ E ≤ 63`, within
the modelled non-merging sort range) and a whole-number percentage `P`
in `[1, 100]`, the Selector marks exactly `⌈E*P/100⌉` keys, never more
than `E`.  `P = 0` never reaches this computation (the `||` default
replaces it by 30), and at non-integer double percentages the
double-precision `Math.ceil((E*P)/100)` can select fewer keys than the
exact ceiling — see the counterexample for both. -/
theorem C3_selection_count (deps : DepMap) (P : ℕ) (rng : List ℚ)
    (hE1 : 1 ≤ deps.length) (hE : deps.length ≤ 63) (hP1 : 1 ≤ P) (hP : P ≤ 100) :
    ((depsToScramble deps (P : ℚ) rng).1).length =
      (⌈((deps.length : ℚ) * (P : ℚ)) / 100⌉).toNat ∧
    (⌈((deps.length : ℚ) * (P : ℚ)) / 100⌉).toNat ≤ deps.length := by
  obtain ⟨hexact, hpos, hle⟩ := scrambleCount_exact deps.length P hE1 hE hP1 hP
  have hkeys : (jsKeys deps).length = deps.length := by simp [jsKeys]
  constructor
  · rw [depsToScramble]
    dsimp only
    rw [hkeys, hexact, jsSliceEnd, if_neg (by omega), List.length_take,
        jsSortRandom_length, hkeys]
    omega
  · omega

/-! ## Frame lemmas: the caller's manifest (`St.original`) is never
written, and writes to `modified` touch only the targeted categories. -/

theorem stDraw_original (st : St) : (stDraw st).2.original = st.original := rfl

theorem addIssue_original (st : St) (s : String) :
    (addIssue st s).original = st.original := rfl

theorem pushScr_original (st : St) (t : DependencyType) (k : String) :
    (pushScr st t k).original = st.original := rfl

theorem setMod_original (st : St) (t : DependencyType) (k v : String) :
    (setMod st t k v).original = st.original := rfl

theorem foldl_preserves_mem {α β : Type} (g : St → β) (f : St → α → St) :
    ∀ (l : List α), (∀ st a, a ∈ l → g (f st a) = g st) →
    ∀ st : St, g (l.foldl f st) = g st := by
  intro l
  induction l with
  | nil => intro _ st; rfl
  | cons x xs ih =>
    intro hf st
    rw [List.foldl_cons, ih (fun st a ha => hf st a (List.mem_cons_of_mem _ ha)),
      hf st x (List.mem_cons_self _ _)]

theorem foldl_preserves {α β : Type} (g : St → β) (f : St → α → St)
    (hf : ∀ st a, g (f st a) = g st) (l : List α) (st : St) :
    g (l.foldl f st) = g st :=
  foldl_preserves_mem g f l (fun st a _ => hf st a) st

theorem foldl_fixed {α : Type} (f : St → α → St) (st : St) (hf : ∀ a, f st a = st) :
    ∀ l : List α, l.foldl f st = st := by
  intro l
  induction l with
  | nil => rfl
  | cons x xs ih => rw [List.foldl_cons, hf, ih]

theorem strategy1Gate_original (cur : DependencyType) (mode : String) (st : St) :
    (strategy1Gate cur mode st).2.original = st.original := by
  simp only [strategy1Gate]
  split_ifs <;> rfl

theorem strategy1Pick_original (sd : List String) (st : St) :
    (strategy1Pick sd st).2.original = st.original := by
  simp only [strategy1Pick]
  split_ifs <;> rfl

theorem strategy1Conflict_original (cv : ℕ × ℕ × ℕ) (st : St) :
    (strategy1Conflict cv st).2.original = st.original := by
  simp only [strategy1Conflict]
  split_ifs <;> rfl

theorem strategy1Write_original (sd rv : Option String) (cv : String) (st : St) :
    (strategy1Write sd rv cv st).original = st.original := by
  simp only [strategy1Write]
  split_ifs <;> rfl

theorem strategy1Core_original (st : St) : (strategy1Core st).original = st.original := by
  simp only [strategy1Core]
  split_ifs <;>
    first
      | rfl
      | rw [strategy1Pick_original]
      | rw [strategy1Write_original, strategy1Conflict_original, strategy1Pick_original]

theorem strategy1_original (cur : DependencyType) (mode : String) (st : St) :
    (strategy1 cur mode st).original = st.original := by
  simp only [strategy1]
  split_ifs
  · rw [strategy1Core_original, strategy1Gate_original]
  · rw [strategy1Gate_original]

theorem strategy2Transitive_original (d : DepMap) (nv : String) (st : St) :
    (strategy2Transitive d nv st).original = st.original := by
  rw [strategy2Transitive]
  refine foldl_preserves St.original _ ?_ _ _
  intro st cf
  dsimp only
  split_ifs <;> rfl

theorem strategy2Core_original (st : St) : (strategy2Core st).original = st.original := by
  simp only [strategy2Core]
  split_ifs <;> first | rfl | (rw [strategy2Transitive_original]; rfl)

theorem strategy2_original (aggr : ℚ) (mode : String) (st : St) :
    (strategy2 aggr mode st).original = st.original := by
  simp only [strategy2]
  split_ifs <;> first | rfl | (rw [strategy2Core_original]; rfl)

theorem processRelated_original (d : DepMap) (bm bma bmi bpa : String)
    (bv : Option String) (st : St) (pk : String) :
    (processRelated d bm bma bmi bpa bv st pk).original = st.original := by
  simp only [processRelated]
  split_ifs <;> rfl

theorem processPfx_original (aggr : ℚ) (dk : List String) (d : DepMap)
    (st : St) (pfx : String) :
    (processPfx aggr dk d st pfx).original = st.original := by
  simp only [processPfx]
  split_ifs <;> try rfl
  all_goals try (split <;> try rfl)
  all_goals
    exact foldl_preserves St.original _
      (fun st pk => processRelated_original _ _ _ _ _ _ _ _) _ _

theorem strategy3_original (cur : DependencyType) (aggr : ℚ) (mode : String) (st : St) :
    (strategy3 cur aggr mode st).original = st.original := by
  simp only [strategy3]
  split_ifs <;> first
    | rfl
    | exact foldl_preserves St.original _ (fun st p => processPfx_original _ _ _ _ _) _ _

theorem createRealisticConflicts_original (cur : DependencyType) (aggr : ℚ)
    (mode : String) (st : St) :
    (createRealisticConflicts cur aggr mode st).original = st.original := by
  rw [createRealisticConflicts, strategy3_original, strategy2_original, strategy1_original]

theorem processDep_original (aggr : ℚ) (mode : String) (vc : List (String × String))
    (respect : Bool) (depType : DependencyType) (deps : DepMap) (st : St) (dep : String) :
    (processDep aggr mode vc respect depType deps st dep).original = st.original := by
  simp only [processDep]
  split_ifs <;> rfl

theorem processCategory_original (P aggr : ℚ) (mode : String) (respect : Bool)
    (vc : List (String × String)) (st : St) (depType : DependencyType) :
    (processCategory P aggr mode respect vc st depType).original = st.original := by
  rw [processCategory]
  split
  · rfl
  · split_ifs
    · rw [createRealisticConflicts_original]
      exact foldl_preserves St.original _
        (fun st d => processDep_original _ _ _ _ _ _ _ _) _ _
    · exact foldl_preserves St.original _
        (fun st d => processDep_original _ _ _ _ _ _ _ _) _ _
    · rfl

/-- C7: `scrambleDependencies` never mutates the caller's manifest: the
threaded reference (`St.original`), through which every read of `pkg`
goes and through which a write would be visible, is returned exactly
equal to the input; all writes go to the deep copy `modified`. -/
theorem C7_input_manifest_never_mutated (pkg : PackageJson) (options : RouletteOptions)
    (rng : List ℚ) : (scrambleDependencies pkg options rng).original = pkg := by
  rw [scrambleDependencies]
  exact foldl_preserves St.original _
    (fun st t => processCategory_original _ _ _ _ _ _ _) _ _

/-- C10: falsy option values are replaced by the defaults via `||`
inside `scrambleDependencies`: percentage 0 behaves as 30, aggression 0
as 5, and the empty-string conflict mode as "realistic" — explicit zero
is never honored at the library interface. -/
theorem C10_falsy_options_fall_back_to_defaults (pkg : PackageJson)
    (opts : RouletteOptions) (rng : List ℚ) :
    scrambleDependencies pkg { opts with scramblePercentage := some 0 } rng =
        scrambleDependencies pkg { opts with scramblePercentage := some 30 } rng ∧
      scrambleDependencies pkg { opts with aggressionLevel := some 0 } rng =
        scrambleDependencies pkg { opts with aggressionLevel := some 5 } rng ∧
      scrambleDependencies pkg { opts with conflictMode := some "" } rng =
        scrambleDependencies pkg { opts with conflictMode := some "realistic" } rng :=
  ⟨rfl, rfl, rfl⟩

/-! ## Write-set lemmas: the Selector writes only its own category; the
Strategist writes only `dependencies` and `peerDependencies`. -/

theorem setMod_modified_other (st : St) (t : DependencyType) (k v : String)
    {t' : DependencyType} (h : t' ≠ t) :
    getCat (setMod st t k v).modified t' = getCat st.modified t' := by
  cases t <;> cases t' <;> first | exact absurd rfl h | rfl

theorem strategy1Gate_modified (cur : DependencyType) (mode : String) (st : St) :
    (strategy1Gate cur mode st).2.modified = st.modified := by
  simp only [strategy1Gate]
  split_ifs <;> rfl

theorem strategy1Pick_modified (sd : List String) (st : St) :
    (strategy1Pick sd st).2.modified = st.modified := by
  simp only [strategy1Pick]
  split_ifs <;> rfl

theorem strategy1Conflict_modified (cv : ℕ × ℕ × ℕ) (st : St) :
    (strategy1Conflict cv st).2.modified = st.modified := by
  simp only [strategy1Conflict]
  split_ifs <;> rfl

theorem strategy1Write_modified_other (sd rv : Option String) (cv : String) (st : St)
    {t' : DependencyType} (h : t' ≠ DependencyType.PEER_DEPENDENCIES) :
    getCat (strategy1Write sd rv cv st).modified t' = getCat st.modified t' := by
  simp only [strategy1Write]
  split_ifs <;> first | rfl | exact setMod_modified_other _ _ _ _ h

theorem strategy1Core_modified_other (st : St) {t' : DependencyType}
    (h : t' ≠ DependencyType.PEER_DEPENDENCIES) :
    getCat (strategy1Core st).modified t' = getCat st.modified t' := by
  simp only [strategy1Core]
  split_ifs <;>
    first
      | rfl
      | rw [strategy1Pick_modified]
      | rw [strategy1Write_modified_other _ _ _ _ h, strategy1Conflict_modified,
            strategy1Pick_modified]

theorem strategy1_modified_other (cur : DependencyType) (mode : String) (st : St)
    {t' : DependencyType} (h : t' ≠ DependencyType.PEER_DEPENDENCIES) :
    getCat (strategy1 cur mode st).modified t' = getCat st.modified t' := by
  simp only [strategy1]
  split_ifs
  · rw [strategy1Core_modified_other _ h, strategy1Gate_modified]
  · rw [strategy1Gate_modified]

theorem strategy2Transitive_modified_other (d : DepMap) (nv : String) (st : St)
    {t' : DependencyType} (h : t' ≠ DependencyType.DEPENDENCIES) :
    getCat (strategy2Transitive d nv st).modified t' = getCat st.modified t' := by
  rw [strategy2Transitive]
  refine foldl_preserves (fun st => getCat st.modified t') _ ?_ _ _
  intro st cf
  dsimp only
  split_ifs <;> first | rfl | exact setMod_modified_other _ _ _ _ h

theorem strategy2Core_modified_other (st : St) {t' : DependencyType}
    (h : t' ≠ DependencyType.DEPENDENCIES) :
    getCat (strategy2Core st).modified t' = getCat st.modified t' := by
  simp only [strategy2Core]
  split_ifs <;> first | rfl | (rw [strategy2Transitive_modified_other _ _ _ h]; rfl)

theorem strategy2_modified_other (aggr : ℚ) (mode : String) (st : St)
    {t' : DependencyType} (h : t' ≠ DependencyType.DEPENDENCIES) :
    getCat (strategy2 aggr mode st).modified t' = getCat st.modified t' := by
  simp only [strategy2]
  split_ifs <;> first | rfl | (rw [strategy2Core_modified_other _ h]; rfl)

theorem processRelated_modified_other (d : DepMap) (bm bma bmi bpa : String)
    (bv : Option String) (st : St) (pk : String) {t' : DependencyType}
    (h : t' ≠ DependencyType.DEPENDENCIES) :
    getCat (processRelated d bm bma bmi bpa bv st pk).modified t' =
      getCat st.modified t' := by
  simp only [processRelated]
  split_ifs <;> first | rfl | exact setMod_modified_other _ _ _ _ h

theorem processPfx_modified_other (aggr : ℚ) (dk : List String) (d : DepMap)
    (st : St) (pfx : String) {t' : DependencyType}
    (h : t' ≠ DependencyType.DEPENDENCIES) :
    getCat (processPfx aggr dk d st pfx).modified t' = getCat st.modified t' := by
  simp only [processPfx]
  split_ifs <;> try rfl
  all_goals try (split <;> try rfl)
  all_goals
    exact foldl_preserves (fun st => getCat st.modified t') _
      (fun st pk => processRelated_modified_other _ _ _ _ _ _ _ _ h) _ _

theorem strategy3_modified_other (cur : DependencyType) (aggr : ℚ) (mode : String)
    (st : St) {t' : DependencyType} (h : t' ≠ DependencyType.DEPENDENCIES) :
    getCat (strategy3 cur aggr mode st).modified t' = getCat st.modified t' := by
  simp only [strategy3]
  split_ifs <;> first
    | rfl
    | exact foldl_preserves (fun st => getCat st.modified t') _
        (fun st p => processPfx_modified_other _ _ _ _ _ h) _ _

theorem createRealisticConflicts_modified_other (cur : DependencyType) (aggr : ℚ)
    (mode : String) (st : St) {t' : DependencyType}
    (hd : t' ≠ DependencyType.DEPENDENCIES)
    (hp : t' ≠ DependencyType.PEER_DEPENDENCIES) :
    getCat (createRealisticConflicts cur aggr mode st).modified t' =
      getCat st.modified t' := by
  rw [createRealisticConflicts, strategy3_modified_other _ _ _ _ hd,
      strategy2_modified_other _ _ _ hd, strategy1_modified_other _ _ _ hp]

theorem processDep_modified_other (aggr : ℚ) (mode : String)
    (vc : List (String × String)) (respect : Bool) (depType : DependencyType)
    (deps : DepMap) (st : St) (dep : String) {t' : DependencyType}
    (h : t' ≠ depType) :
    getCat (processDep aggr mode vc respect depType deps st dep).modified t' =
      getCat st.modified t' := by
  simp only [processDep]
  split_ifs <;> first | rfl | exact setMod_modified_other _ _ _ _ h

theorem processCategory_modified_other (P aggr : ℚ) (mode : String) (respect : Bool)
    (vc : List (String × String)) (st : St) (depType : DependencyType)
    {t' : DependencyType} (h1 : t' ≠ depType)
    (hd : t' ≠ DependencyType.DEPENDENCIES)
    (hp : t' ≠ DependencyType.PEER_DEPENDENCIES) :
    getCat (processCategory P aggr mode respect vc st depType).modified t' =
      getCat st.modified t' := by
  rw [processCategory]
  split
  · rfl
  · split_ifs
    · rw [createRealisticConflicts_modified_other _ _ _ _ hd hp]
      exact foldl_preserves (fun st => getCat st.modified t') _
        (fun st d => processDep_modified_other _ _ _ _ _ _ _ _ h1) _ _
    · exact foldl_preserves (fun st => getCat st.modified t') _
        (fun st d => processDep_modified_other _ _ _ _ _ _ _ _ h1) _ _
    · rfl

/-- C4 (amended): categories other than `dependencies` and
`peerDependencies` that are not listed in `dependencyTypes` are never
written: the Selector writes only listed categories and the Strategist
writes only the `dependencies`/`peerDependencies` maps of the copy
(regardless of `dependencyTypes` — see the counterexample). -/
theorem C4_unlisted_dev_optional_never_written (pkg : PackageJson)
    (opts : RouletteOptions) (rng : List ℚ) (t : DependencyType)
    (ht : t = DependencyType.DEV_DEPENDENCIES ∨ t = DependencyType.OPTIONAL_DEPENDENCIES)
    (hmem : t ∉ effDepTypes opts) :
    getCat (scrambleDependencies pkg opts rng).modified t = getCat pkg t := by
  have hd : t ≠ DependencyType.DEPENDENCIES := by rcases ht with rfl | rfl <;> simp
  have hp : t ≠ DependencyType.PEER_DEPENDENCIES := by rcases ht with rfl | rfl <;> simp
  rw [scrambleDependencies]
  exact foldl_preserves_mem (fun st => getCat st.modified t) _ (effDepTypes opts)
    (fun st u hu => processCategory_modified_other _ _ _ _ _ _ _
      (fun he => hmem (he ▸ hu)) hd hp) _

/-! ## Nothing-to-do lemmas: degenerate data shapes are silently
skipped, never surfaced as errors (all embedded functions are total). -/

theorem processCategory_skip (P aggr : ℚ) (mode : String) (respect : Bool)
    (vc : List (String × String)) (st : St) (u : DependencyType)
    (h : (getCat st.original u).getD [] = []) :
    processCategory P aggr mode respect vc st u = st := by
  rw [processCategory]
  split
  · rfl
  · rename_i deps hdeps
    have hnil : deps = [] := by
      rw [hdeps] at h
      exact h
    subst hnil
    rw [if_neg (by simp [jsKeys])]

theorem strategy1Gate_msi (cur : DependencyType) (mode : String) (st : St) :
    (strategy1Gate cur mode st).2.modified = st.modified ∧
    (strategy1Gate cur mode st).2.scrambled = st.scrambled ∧
    (strategy1Gate cur mode st).2.issues = st.issues := by
  simp only [strategy1Gate]
  split_ifs <;> exact ⟨rfl, rfl, rfl⟩

theorem strategy1_skip (cur : DependencyType) (mode : String) (st : St)
    (h : st.original.dependencies.getD [] = []) :
    strategy1 cur mode st = (strategy1Gate cur mode st).2 := by
  simp only [strategy1]
  split_ifs with hcond
  · exfalso
    obtain ⟨h1, h2, h3⟩ := hcond
    rw [strategy1Gate_original] at h2 h3
    rcases hd : st.original.dependencies with _ | d
    · rw [hd] at h2
      simp at h2
    · rw [hd] at h
      simp at h
      subst h
      rw [hd] at h3
      simp [jsKeys] at h3
  · rfl

theorem strategy2Core_skip (st : St) (h : st.original.dependencies.getD [] = []) :
    strategy2Core st = st := by
  simp only [strategy2Core]
  rw [h]
  rw [if_neg (by simp [jsKeys])]

theorem strategy3_skip (cur : DependencyType) (aggr : ℚ) (mode : String) (st : St)
    (h : st.original.dependencies.getD [] = []) :
    strategy3 cur aggr mode st = st := by
  simp only [strategy3]
  split_ifs
  · rw [h]
    rfl
  · rfl

theorem createRealisticConflicts_skip (cur : DependencyType) (aggr : ℚ) (mode : String)
    (st : St) (h : st.original.dependencies.getD [] = []) :
    (createRealisticConflicts cur aggr mode st).modified = st.modified ∧
    (createRealisticConflicts cur aggr mode st).scrambled = st.scrambled ∧
    (createRealisticConflicts cur aggr mode st).issues = st.issues := by
  rw [createRealisticConflicts, strategy1_skip cur mode st h]
  obtain ⟨hg1, hg2, hg3⟩ := strategy1Gate_msi cur mode st
  have hg0 : (strategy1Gate cur mode st).2.original = st.original :=
    strategy1Gate_original cur mode st
  have h2 : (strategy1Gate cur mode st).2.original.dependencies.getD [] = [] := by
    rw [hg0]
    exact h
  have hs3 : (strategy2 aggr mode (strategy1Gate cur mode st).2).original.dependencies.getD []
      = [] := by
    rw [strategy2_original, hg0]
    exact h
  rw [strategy3_skip _ _ _ _ hs3]
  simp only [strategy2]
  split_ifs
  · rw [strategy2Core_skip (stDraw (strategy1Gate cur mode st).2).2 h2]
    exact ⟨hg1, hg2, hg3⟩
  · exact ⟨hg1, hg2, hg3⟩
  · exact ⟨hg1, hg2, hg3⟩

/-- C8: for a key the Selector chose, the change is recorded exactly
when the mutated specifier differs from the original: precisely then the
new value is written into the copied category map, the key is appended
to that category's scrambled list, and the issue line
`Modified <category> <name>: <old> -> <new>` is appended; otherwise the
session is unchanged apart from the consumed draws. -/
theorem C8_record_iff_changed (aggr : ℚ) (mode : String) (vc : List (String × String))
    (respect : Bool) (depType : DependencyType) (deps : DepMap) (st : St) (dep ov : String)
    (hov : jsGet deps dep = some ov) (hm : (getCat st.modified depType).isSome = true) :
    processDep aggr mode vc respect depType deps st dep =
      (let r := scrambleVersion ov aggr
          { conflictMode := some mode, packageName := some dep,
            versionConstraints := some vc, respectMajorVersion := respect } st.rng
       if r.1 ≠ ov then
         addIssue (pushScr (setMod { st with rng := r.2 } depType dep r.1) depType dep)
           ("Modified " ++ depType.str ++ " " ++ dep ++ ": " ++ ov ++ " -> " ++ r.1)
       else { st with rng := r.2 }) := by
  simp only [processDep, hov, Option.getD_some]
  by_cases hne : (scrambleVersion ov aggr
      { conflictMode := some mode, packageName := some dep,
        versionConstraints := some vc, respectMajorVersion := respect } st.rng).1 = ov
  · rw [if_neg (by simp [hne]), if_neg (by simp [hne])]
  · have hr : (scrambleVersion ov aggr
        { conflictMode := some mode, packageName := some dep,
          versionConstraints := some vc, respectMajorVersion := respect } st.rng).1 ≠ ov := hne
    have hl : (some ov : Option String) ≠ some ((scrambleVersion ov aggr
        { conflictMode := some mode, packageName := some dep,
          versionConstraints := some vc, respectMajorVersion := respect } st.rng).1) := by
      simpa using Ne.symm hne
    rw [if_pos hl, if_pos hr, if_pos hm]
    rfl

/-- C9: the Mutator, Selector and Strategist never fail for data-shape
reasons (every embedded function is total, mirroring the guard structure
of the source); degenerate shapes are "nothing to do": an unparseable
specifier is returned unchanged with no draw consumed, a manifest whose
categories are all missing or empty yields the unchanged copy with no
scrambles and no issues, and a Strategist invocation with no regular
dependencies leaves the copy, the scramble lists and the issue log
untouched. -/
theorem C9_degenerate_shapes_are_noops :
    (∀ (v : String) (aggr : ℚ) (opts : MutOpts) (rng : List ℚ),
        parseVersion v = none → scrambleVersion v aggr opts rng = (v, rng)) ∧
    (∀ (pkg : PackageJson) (opts : RouletteOptions) (rng : List ℚ),
        (∀ u : DependencyType, (getCat pkg u).getD [] = []) →
        scrambleDependencies pkg opts rng =
          { original := pkg, modified := pkg, scrambled := ScrambledDeps.empty,
            issues := [], rng := rng }) ∧
    (∀ (cur : DependencyType) (aggr : ℚ) (mode : String) (st : St),
        st.original.dependencies.getD [] = [] →
        (createRealisticConflicts cur aggr mode st).modified = st.modified ∧
        (createRealisticConflicts cur aggr mode st).scrambled = st.scrambled ∧
        (createRealisticConflicts cur aggr mode st).issues = st.issues) := by
  refine ⟨?_, ?_, ?_⟩
  · intro v aggr opts rng h
    rw [scrambleVersion, h]
  · intro pkg opts rng h
    rw [scrambleDependencies]
    exact foldl_fixed _ _ (fun u => processCategory_skip _ _ _ _ _ _ u (h u)) _
  · intro cur aggr mode st h
    exact createRealisticConflicts_skip cur aggr mode st h

/-! ## Concrete runs
The remaining theorems evaluate the embedding on concrete inputs in the
kernel.  Batteries marks the `Rat` arithmetic operations
`@[irreducible]`; restoring them to `semireducible` lets `decide`
evaluate concrete rational arithmetic. -/

set_option allowUnsafeReducibility true
attribute [semireducible] Rat.mul Rat.add Rat.sub Rat.inv

/-- Witness for C2 at `"^1.2.3"` under realistic mode with a safe
constraint for the package (exercising the constraint path). -/
theorem C2_witness :
    (parseVersion "^1.2.3" = some ⟨"^", "1", "2", "3", none⟩ ∧
     safePV ⟨"^", "1", "2", "3", none⟩ = true ∧
     cfSafe (some "react") (some [("react", "^17.0.0")]) = true ∧
     rngOk [0, 0, 0, 0, 0]) ∧
    (parseVersion (scrambleVersion "^1.2.3" 10
      { conflictMode := some "realistic", packageName := some "react",
        versionConstraints := some [("react", "^17.0.0")] } [0, 0, 0, 0, 0]).1).isSome :=
  ⟨⟨by decide, by decide, by decide, by decide⟩,
   C2_mutated_specifier_wellformed "^1.2.3" ⟨"^", "1", "2", "3", none⟩ (by decide)
     (by decide) 10
     { conflictMode := some "realistic", packageName := some "react",
       versionConstraints := some [("react", "^17.0.0")] }
     (by decide) [0, 0, 0, 0, 0] (by decide)⟩

/-- C2 counterexample: the grammar-valid specifier
`"1000000000000000000000.0.0"` (major 10^21) is reassembled through
`Number` and `String`, and JS prints 1e21 in exponential notation, so
the output `"1e+21.0.0"` no longer matches the grammar — for draws
within the `[0,1)` contract that leave every component unchanged. -/
theorem C2_counterexample :
    (parseVersion "1000000000000000000000.0.0").isSome = true ∧
    rngOk [0, 99/100, 99/100] ∧
    scrambleVersion "1000000000000000000000.0.0" 1 {} [0, 99/100, 99/100] =
      ("1e+21.0.0", []) ∧
    parseVersion "1e+21.0.0" = none := by decide

def c3wdeps : DepMap :=
  [("express", "^4.17.1"), ("react", "^17.0.2"), ("lodash", "~4.17.21")]

/-- Witness for C3 at three entries and 30 percent: exactly
`⌈3*30/100⌉ = 1` key selected. -/
theorem C3_witness :
    (1 ≤ c3wdeps.length ∧ c3wdeps.length ≤ 63 ∧ 1 ≤ (30 : ℕ) ∧ (30 : ℕ) ≤ 100) ∧
    ((depsToScramble c3wdeps ((30 : ℕ) : ℚ) [1/4, 3/4, 3/4, 3/4]).1).length =
        (⌈((c3wdeps.length : ℚ) * ((30 : ℕ) : ℚ)) / 100⌉).toNat ∧
      (⌈((c3wdeps.length : ℚ) * ((30 : ℕ) : ℚ)) / 100⌉).toNat ≤ c3wdeps.length :=
  ⟨⟨by decide, by decide, by decide, by decide⟩,
    C3_selection_count c3wdeps 30 [1/4, 3/4, 3/4, 3/4] (by decide) (by decide)
      (by decide) (by decide)⟩

/-- The binary64 value nearest `100/7` (slightly above it). -/
def c3P : ℚ := 8042142191733029 / 562949953421312

def c3deps7 : DepMap :=
  [("d1", "1.0.0"), ("d2", "1.0.0"), ("d3", "1.0.0"), ("d4", "1.0.0"),
   ("d5", "1.0.0"), ("d6", "1.0.0"), ("d7", "1.0.0")]

/-- C3 counterexample, both failure modes.  First, `scramblePercentage
= 0` does not select zero candidates: the `||` fallback replaces 0 by
the default 30, so a single-entry category still selects (and with
these draws mutates and records) one key.  Second, the double
arithmetic diverges from the exact formula inside `(0, 100]`: at `E =
7` and the representable percentage `fl(100/7)`, the double product
`7 * P` rounds down to exactly `100.0`, so the program computes
`Math.ceil(1.0) = 1` and selects one key, while the exact ceiling of
`7*P/100` is 2. -/
theorem C3_counterexample :
    ((scrambleDependencies ⟨"p", "1.0.0", some [("a", "1.0.0")], none, none, none⟩
      { dependencyTypes := some [DependencyType.DEPENDENCIES],
        scramblePercentage := some 0, aggressionLevel := some 10,
        conflictMode := some "simple" }
      [0, 0, 1/8, 99/100]).scrambled.dependencies = ["a"]) ∧
    flQ (100 / 7) = c3P ∧ flQ c3P = c3P ∧ 0 < c3P ∧ c3P ≤ 100 ∧
    ((depsToScramble c3deps7 c3P [3/4, 3/4, 3/4, 3/4, 3/4, 3/4]).1).length = 1 ∧
    ⌈((7 : ℚ) * c3P) / 100⌉ = 2 := by decide

def c4pkg : PackageJson :=
  ⟨"p", "1.0.0", some [("react", "^17.0.2"), ("@babel/core", "7.1.0")],
   some [("a", "latest")], none, none⟩

def c4opts : RouletteOptions :=
  { dependencyTypes := some [DependencyType.DEV_DEPENDENCIES],
    scramblePercentage := some 100, aggressionLevel := some 10,
    conflictMode := some "realistic" }

/-- C4 counterexample: with `dependencyTypes = [devDependencies]` and
realistic mode, the Strategist's transitive-conflict branch still writes
the unlisted `dependencies` map (react and @babel/core both become
`17.0.0`). -/
theorem C4_counterexample :
    (scrambleDependencies c4pkg c4opts [0, 0, 0, 0]).modified.dependencies ≠
      c4pkg.dependencies := by decide

/-- Witness for C4 (amended) at the same run: the unlisted
`optionalDependencies` category is untouched. -/
theorem C4_witness :
    ((DependencyType.OPTIONAL_DEPENDENCIES = DependencyType.DEV_DEPENDENCIES ∨
        DependencyType.OPTIONAL_DEPENDENCIES = DependencyType.OPTIONAL_DEPENDENCIES) ∧
      DependencyType.OPTIONAL_DEPENDENCIES ∉ effDepTypes c4opts) ∧
    getCat (scrambleDependencies c4pkg c4opts [0, 0, 0, 0]).modified
        DependencyType.OPTIONAL_DEPENDENCIES =
      getCat c4pkg DependencyType.OPTIONAL_DEPENDENCIES :=
  ⟨⟨Or.inr rfl, by decide⟩,
    C4_unlisted_dev_optional_never_written c4pkg c4opts [0, 0, 0, 0]
      DependencyType.OPTIONAL_DEPENDENCIES (Or.inr rfl) (by decide)⟩

def c5pkg : PackageJson :=
  ⟨"p", "1.0.0", some [("react", "17.2.0")], none, some [("react", "^17.0.0")], none⟩

def c5opts : RouletteOptions :=
  { dependencyTypes := some [DependencyType.PEER_DEPENDENCIES],
    scramblePercentage := some 100, aggressionLevel := some 5,
    conflictMode := some "peer-conflict",
    versionConstraints := some [("react", "^17.0.0")] }

/-- C5 counterexample, both failure modes.  First, react carries the
valid constraint `^17.0.0` (major 17), yet the Strategist's
peer-conflict branch — which never reads `versionConstraints` —
overwrites the react peer specifier with `^18.0.0`, major 18.  Second,
outside the exact double range even the constraint path moves the
major: `Number` rounds the constraint major `9007199254740993`
(2^53 + 1) to `9007199254740992`, which the untouched-branch rendering
then emits. -/
theorem C5_counterexample :
    (jsGet ((scrambleDependencies c5pkg c5opts
          [99/100, 0, 0, 0]).modified.peerDependencies.getD [])
        "react" = some "^18.0.0" ∧
      (parseVersion "^18.0.0").map (fun q => num q.major) = some (some 18) ∧
      constraintFor (some "react") (some [("react", "^17.0.0")]) =
        some ("^", some 17, some 0, some 0) ∧
      (18 : ℤ) ≠ 17) ∧
    (num "9007199254740993" = some 9007199254740992 ∧
      scrambleVersion "1.0.0" 1
        { packageName := some "react",
          versionConstraints := some [("react", "9007199254740993.0.0")] } [99/100] =
        ("9007199254740992.0.0", []) ∧
      (9007199254740992 : ℤ) ≠ 9007199254740993) := by decide

def c5mopts : MutOpts :=
  { conflictMode := some "peer-conflict", packageName := some "react",
    versionConstraints := some [("react", "^17.0.0")], respectMajorVersion := true }

/-- Witness for C5 (amended): the Mutator's constraint path at react
keeps major 17. -/
theorem C5_witness :
    (parseVersion "^17.0.0" = some ⟨"^", "17", "0", "0", none⟩ ∧
      constraintFor c5mopts.packageName c5mopts.versionConstraints =
        some ("^", some 17, some 0, some 0) ∧
      cfSafe c5mopts.packageName c5mopts.versionConstraints = true ∧
      rngOk [0, 0, 0, 0, 0]) ∧
    (parseVersion (scrambleVersion "^17.0.0" 5 c5mopts [0, 0, 0, 0, 0]).1).map
        (fun q => num q.major) = some (some 17) :=
  ⟨⟨by decide, by decide, by decide, by decide⟩,
    C5_constraint_path_preserves_major "^17.0.0" ⟨"^", "17", "0", "0", none⟩ (by decide)
      5 c5mopts "^" 17 (some 0) (some 0) (by decide) (by decide)
      [0, 0, 0, 0, 0] (by decide)⟩

/-! ## C6: the random-comparator shuffle is biased.
The comparator `() => Math.random() - 0.5` matters only through the
sign of `draw - 0.5`, so a uniform draw is represented, per comparator
call, by the two half-interval representatives `1/4` and `3/4`; V8's
sort makes at most four comparator calls for three keys (run count plus
binary insertion), giving 16 equally likely draw classes (classes whose
run ends early simply leave trailing draws unused). -/

def c6deps : DepMap := [("a", "1.0.0"), ("b", "1.0.0"), ("c", "1.0.0")]

def c6tuples : List (Bool × Bool × Bool × Bool) :=
  [(false, false, false, false), (false, false, false, true),
   (false, false, true, false), (false, false, true, true),
   (false, true, false, false), (false, true, false, true),
   (false, true, true, false), (false, true, true, true),
   (true, false, false, false), (true, false, false, true),
   (true, false, true, false), (true, false, true, true),
   (true, true, false, false), (true, true, false, true),
   (true, true, true, false), (true, true, true, true)]

def c6draws (t : Bool × Bool × Bool × Bool) : List ℚ :=
  [if t.1 then 3/4 else 1/4, if t.2.1 then 3/4 else 1/4,
   if t.2.2.1 then 3/4 else 1/4, if t.2.2.2 then 3/4 else 1/4]

/-- Number of the 16 draw classes in which key `k` is among the selected
prefix for `c6deps` at the default 30 percent (`scrambleCount = 1`). -/
def selCount (k : String) : ℕ :=
  (c6tuples.filter (fun t =>
    ((depsToScramble c6deps 30 (c6draws t)).1).contains k)).length

/-- C6 counterexample: the first and the second entry of a three-entry
category are not equally likely to be chosen — the selection is not
unbiased. -/
theorem C6_counterexample : selCount "a" ≠ selCount "b" := by decide

/-- C6 (amended): the count is deterministic, but the
sort-by-random-comparator selection under V8's TimSort is biased: over
the 16 equally likely draw classes the three keys are selected 7, 3
and 6 times — probabilities 7/16, 3/16 and 3/8 instead of 1/3 each. -/
theorem C6_selection_distribution :
    selCount "a" = 7 ∧ selCount "b" = 3 ∧ selCount "c" = 6 := by decide

def c8pkg : PackageJson := ⟨"p", "1.0.0", some [("a", "1.0.0")], none, none, none⟩

def c8st : St :=
  { original := c8pkg, modified := c8pkg, scrambled := ScrambledDeps.empty,
    issues := [], rng := [0, 0, 1/8, 99/100] }

/-- Witness for C8: the chosen key mutates (`1.0.0` to `~1.0.0`), and
exactly the three recordings happen. -/
theorem C8_witness :
    (jsGet [("a", "1.0.0")] "a" = some "1.0.0" ∧
      (getCat c8st.modified DependencyType.DEPENDENCIES).isSome = true) ∧
    processDep 10 "simple" [] true DependencyType.DEPENDENCIES [("a", "1.0.0")] c8st "a" =
      (let r := scrambleVersion "1.0.0" 10
          { conflictMode := some "simple", packageName := some "a",
            versionConstraints := some [], respectMajorVersion := true } c8st.rng
       if r.1 ≠ "1.0.0" then
         addIssue (pushScr (setMod { c8st with rng := r.2 } DependencyType.DEPENDENCIES "a" r.1)
             DependencyType.DEPENDENCIES "a")
           ("Modified " ++ DependencyType.DEPENDENCIES.str ++ " " ++ "a" ++ ": " ++
             "1.0.0" ++ " -> " ++ r.1)
       else { c8st with rng := r.2 }) :=
  ⟨⟨by decide, by decide⟩,
    C8_record_iff_changed 10 "simple" [] true DependencyType.DEPENDENCIES
      [("a", "1.0.0")] c8st "a" "1.0.0" (by decide) (by decide)⟩

def c9pkg : PackageJson := ⟨"p", "1.0.0", some [], none, none, none⟩

def c9st : St :=
  { original := c9pkg, modified := c9pkg, scrambled := ScrambledDeps.empty,
    issues := [], rng := [1/4, 1/4] }

/-- Witness for C9: an opaque specifier, an all-empty manifest and a
Strategist call without regular dependencies are all silent no-ops. -/
theorem C9_witness :
    (parseVersion "workspace:*" = none ∧
      (∀ u : DependencyType, (getCat c9pkg u).getD [] = []) ∧
      c9st.original.dependencies.getD [] = []) ∧
    scrambleVersion "workspace:*" 7 {} [1/2] = ("workspace:*", [1/2]) ∧
    scrambleDependencies c9pkg {} [1/3] =
      { original := c9pkg, modified := c9pkg, scrambled := ScrambledDeps.empty,
        issues := [], rng := [1/3] } ∧
    ((createRealisticConflicts DependencyType.DEPENDENCIES 5 "realistic" c9st).modified =
        c9st.modified ∧
      (createRealisticConflicts DependencyType.DEPENDENCIES 5 "realistic" c9st).scrambled =
        c9st.scrambled ∧
      (createRealisticConflicts DependencyType.DEPENDENCIES 5 "realistic" c9st).issues =
        c9st.issues) :=
  ⟨⟨by decide, fun u => by cases u <;> rfl, rfl⟩,
    C9_degenerate_shapes_are_noops.1 "workspace:*" 7 {} [1/2] (by decide),
    C9_degenerate_shapes_are_noops.2.1 c9pkg {} [1/3] (fun u => by cases u <;> rfl),
    C9_degenerate_shapes_are_noops.2.2 DependencyType.DEPENDENCIES 5 "realistic" c9st rfl⟩
